import Mathlib

/-!
Verification of the deduplication core of the yoyakutoukou repository.

The development shallowly embeds:
  - the SQLite-backed dedupe store (`dedupe_store.py`): one row per product
    identifier, exact-string primary key;
  - the claim / commit protocol used by the pipeline
    (`src/services/poster.py` `process_item`, `scripts/run_batch.py` `main`);
  - the reconciliation sync (`scripts/run_batch.py` `sync_wp_cache`);
  - the FANZA identifier extractor (`src/clients/wordpress.py`);
  - the WordPress client request/retry logic (`_request` in both
    `src/clients/wordpress.py` and `wp_client.py`).

Stores are embedded as association lists (one entry per SQL row); text is
modelled over ASCII (the regexes involved are ASCII-only apart from Python
word-boundary semantics on non-ASCII text, which no property here exercises).
The `created_at` column is carried as an opaque string supplied by callers.
-/

/-- One row of the `posted_items` table
(`product_id` is the association-list key). -/
structure Row where
  status : String
  wpPostId : Option Nat
  createdAt : String
  errorMessage : Option String
deriving DecidableEq, Repr

/-- The `posted_items` table: one entry per row, keyed by `product_id`.
The SQL PRIMARY KEY makes keys unique in reachable states; theorems that
need uniqueness take it as a hypothesis. -/
abbrev Store := List (String × Row)

/-- `SELECT ... WHERE product_id = ?` : first row with the exact key. -/
def lookupRow (s : Store) (pid : String) : Option Row :=
  (s.find? (fun e => e.1 = pid)).map (fun e => e.2)

/-- `DedupeStore.is_posted`: true iff any row exists for the identifier,
irrespective of status (dedupe_store.py lines 51-65). -/
def is_posted (s : Store) (pid : String) : Bool :=
  (lookupRow s pid).isSome

/-- `INSERT OR REPLACE`: replace the row with this key, or add one. -/
def upsertRow : Store → String → Row → Store
  | [], pid, r => [(pid, r)]
  | (k, v) :: rest, pid, r =>
      if k = pid then (pid, r) :: rest else (k, v) :: upsertRow rest pid r

/-- `DedupeStore.record_success` (dedupe_store.py lines 67-84):
`INSERT OR REPLACE` with the given status, `wp_post_id`, fresh
`created_at`, and `error_message = NULL`. -/
def record_success (s : Store) (pid : String) (wpPostId : Option Nat)
    (status : String) (now : String) : Store :=
  upsertRow s pid ⟨status, wpPostId, now, none⟩

/-- `DedupeStore.record_failure` (dedupe_store.py lines 86-102):
`INSERT OR REPLACE` with status `failed`, `wp_post_id = NULL` and the
error message. -/
def record_failure (s : Store) (pid : String) (msg : String)
    (now : String) : Store :=
  upsertRow s pid ⟨"failed", none, now, some msg⟩

/-- `DedupeStore.clear_failed` (dedupe_store.py lines 123-132):
`DELETE FROM posted_items WHERE status = 'failed'`, returning the number
of deleted rows (`cursor.rowcount`). -/
def clear_failed (s : Store) : Store × Nat :=
  (s.filter (fun e => e.2.status ≠ "failed"),
   (s.filter (fun e => e.2.status = "failed")).length)

/-- Modelled from the spec: `try_claim` / `try_start` of the pipeline's
`DedupeStore` (`src.database.dedupe`, imported by `src/services/poster.py`
and `scripts/run_batch.py` but absent from the repository snapshot).
Spec section 4.1: atomically inserts a row with status `claimed` if and only
if no row currently exists for that identifier; returns whether the claim
succeeded. -/
def try_start (s : Store) (pid : String) (now : String) : Store × Bool :=
  if (lookupRow s pid).isSome then (s, false)
  else ((pid, ⟨"claimed", none, now, none⟩) :: s, true)

/-- N sequential invocations of `try_start` for the same identifier
(the serialization of N concurrent workers, each call atomic);
returns the final store and the number of calls that returned true. -/
def iter_try_start (s : Store) (pid : String) (now : String) : Nat → Store × Nat
  | 0 => (s, 0)
  | n + 1 =>
      let r := try_start s pid now
      let rest := iter_try_start r.1 pid now n
      (rest.1, rest.2 + (if r.2 then 1 else 0))

/-- The `meta` key-value sidecar table of the pipeline's store.
Modelled from the spec: `get_meta(key) / set_meta(key, value)` is a small
persisted key-value sidecar (spec section 4.1); the implementing module
`src.database.dedupe` is absent from the repository snapshot. -/
abbrev MetaTable := List (String × String)

/-- Modelled from the spec: `get_meta(key)` of the pipeline's store. -/
def get_meta (m : MetaTable) (key : String) : Option String :=
  (m.find? (fun e => e.1 = key)).map (fun e => e.2)

/-- Key-value upsert for the meta sidecar. -/
def upsertMeta : MetaTable → String → String → MetaTable
  | [], key, v => [(key, v)]
  | (k, w) :: rest, key, v =>
      if k = key then (key, v) :: rest else (k, w) :: upsertMeta rest key v

/-- Modelled from the spec: `set_meta(key, value)` of the pipeline's store. -/
def set_meta (m : MetaTable) (key : String) (v : String) : MetaTable :=
  upsertMeta m key v

/-- Modelled from the spec: `bulk_mark_posted` / `bulk_upsert` of the
pipeline's store (spec section 4.1): insert the pairs not already present
with the given status, idempotently, returning the inserted count. -/
def bulk_mark_posted (s : Store) (items : List (String × Option Nat))
    (status : String) (now : String) : Store × Nat :=
  match items with
  | [] => (s, 0)
  | (pid, wp) :: rest =>
      if (lookupRow s pid).isSome then bulk_mark_posted s rest status now
      else
        let r := bulk_mark_posted ((pid, ⟨status, wp, now, none⟩) :: s) rest status now
        (r.1, r.2 + 1)

/-- Statuses the spec calls terminal. -/
def isTerminalStatus (st : String) : Bool :=
  st = "drafted" || st = "published" || st = "dry_run" || st = "failed"

/-- Status of the row for `pid`, if any. -/
def statusOf (s : Store) (pid : String) : Option String :=
  (lookupRow s pid).map (fun r => r.status)

/-- ASCII lower-casing as Python's `str.lower()` on ASCII text
(`.lower()` calls in poster.py line 45 and run_batch.py lines 196, 221). -/
def lowerStr (s : String) : String := String.mk (s.data.map Char.toLower)

/-- A fetched FANZA candidate as the pipeline filter sees it
(only `product_id` is consulted by the dedupe filter). -/
structure FetchedItem where
  productId : String
deriving DecidableEq, Repr

/-- The candidate-filter loop of `scripts/run_batch.py` `main`
(lines 216-228): for each fetched item, normalize the identifier to lower
case, skip it if already seen in this run, record it as seen, append it to
the pool unless `is_posted`, and stop once the pool reaches
`candidate_pool_size`. Returns the updated seen-set and pool. -/
def select_candidates (store : Store) (poolSize : Nat) :
    List String → List FetchedItem → List FetchedItem →
    List String × List FetchedItem
  | seen, acc, [] => (seen, acc)
  | seen, acc, item :: rest =>
      let pidNorm := lowerStr item.productId
      if pidNorm ∈ seen then select_candidates store poolSize seen acc rest
      else
        let seen' := pidNorm :: seen
        let acc' := if is_posted store pidNorm then acc else acc ++ [item]
        if poolSize ≤ acc'.length then (seen', acc')
        else select_candidates store poolSize seen' acc' rest

/-- Uniqueness of the `product_id` PRIMARY KEY: holds in every state the
SQLite schema can reach; taken as a hypothesis where a theorem needs it. -/
def KeysNodup (s : Store) : Prop := (s.map Prod.fst).Nodup

instance (s : Store) : Decidable (KeysNodup s) :=
  inferInstanceAs (Decidable (s.map Prod.fst).Nodup)

/-- ASCII upper-case letter test (code points 65-90). -/
def isAsciiUpper (c : Char) : Bool := 65 ≤ c.toNat && c.toNat ≤ 90

/-- A call made to the dedupe store, for tracing which keys the pipeline
passes to the store. -/
inductive StoreCall where
  | claimCall (pid : String)
  | successCall (pid : String) (wpPostId : Option Nat) (status : String)
  | failureCall (pid : String) (msg : String)
deriving DecidableEq, Repr

/-- The key a store call carries. -/
def StoreCall.pid : StoreCall → String
  | .claimCall p => p
  | .successCall p _ _ => p
  | .failureCall p _ => p

/-- One candidate together with the pipeline's external oracles:
whether the WordPress duplicate checks report an existing post, whether
the item has any sample image, and the outcome of the expensive work
(LLM generation, image upload, rendering and `post_draft`), which either
returns the created post id or raises with a message. -/
structure ItemCtx where
  productId : String
  wpExistsFanza : Bool
  wpExistsSlug : Bool
  hasSamples : Bool
  work : Except String Nat
deriving Repr

/-- Result of processing one candidate. -/
structure ItemResult where
  store : Store
  outcome : String
  calls : List StoreCall
deriving Repr

/-- `PosterService.process_item` (src/services/poster.py lines 43-312),
with the network-facing work abstracted into `ItemCtx` oracles:
lower-case the identifier (line 45); claim it with `try_start` and skip on
failure (lines 47-50); when not a dry run, skip (recording a drafted
success) if WordPress already has the post by FANZA id or slug
(lines 54-64); skip if no sample image exists (lines 67-70); then do the
expensive work: any exception is caught by the final handler, which calls
`record_failure` with the exception message and returns failure
(lines 309-312); on success record `dry_run` (dry run, line 286) or
`drafted` with the new post id (line 306) and return success. -/
def process_item (s : Store) (ctx : ItemCtx) (dryRun : Bool) (now : String) :
    ItemResult :=
  let pid := lowerStr ctx.productId
  let r := try_start s pid now
  if !r.2 then ⟨r.1, "skip", [.claimCall pid]⟩
  else if !dryRun && ctx.wpExistsFanza then
    ⟨record_success r.1 pid none "drafted" now, "skip",
     [.claimCall pid, .successCall pid none "drafted"]⟩
  else if !dryRun && ctx.wpExistsSlug then
    ⟨record_success r.1 pid none "drafted" now, "skip",
     [.claimCall pid, .successCall pid none "drafted"]⟩
  else if !ctx.hasSamples then ⟨r.1, "skip", [.claimCall pid]⟩
  else
    match ctx.work with
    | .error msg =>
        ⟨record_failure r.1 pid msg now, "failure",
         [.claimCall pid, .failureCall pid msg]⟩
    | .ok postId =>
        if dryRun then
          ⟨record_success r.1 pid none "dry_run" now, "success",
           [.claimCall pid, .successCall pid none "dry_run"]⟩
        else
          ⟨record_success r.1 pid (some postId) "drafted" now, "success",
           [.claimCall pid, .successCall pid (some postId) "drafted"]⟩

/-- The batch loop of `scripts/run_batch.py` `main` (lines 237-253): each
item is processed in turn; the result tallies
(successes, failures, skips); any result other than success or skip
counts as a failure, and the loop always proceeds to the next item. -/
def run_batch_loop (dryRun : Bool) (now : String) :
    Store → List ItemCtx → Store × Nat × Nat × Nat
  | s, [] => (s, 0, 0, 0)
  | s, ctx :: rest =>
      let r := process_item s ctx dryRun now
      let t := run_batch_loop dryRun now r.store rest
      if r.outcome = "success" then (t.1, t.2.1 + 1, t.2.2.1, t.2.2.2)
      else if r.outcome = "skip" then (t.1, t.2.1, t.2.2.1, t.2.2.2 + 1)
      else (t.1, t.2.1, t.2.2.1 + 1, t.2.2.2)

/-- A response the WordPress server returns for one HTTP attempt.
`retryAfterHint` is the numeric `Retry-After` header when present. -/
structure HttpResponse where
  status : Nat
  retryAfterHint : Option Nat
deriving DecidableEq, Repr

/-- The fixed per-request timeout of both WordPress clients
(`self.timeout = 20`, wordpress.py line 59 / wp_client.py line 41). -/
def wpTimeoutSeconds : Nat := 20

/-- `WPClient._request` (identical logic in src/clients/wordpress.py lines
203-229 and wp_client.py lines 51-77), driven by the oracle list of
responses the server gives to successive attempts: each attempt is issued
with the fixed timeout; a 429 response makes the client sleep for
`int(headers.get("Retry-After", 60))` seconds and then call itself
recursively with the same arguments; any other response is returned.
Returns the final response, the timeout used by each attempt, and the
waits performed (one per retry); `none` models the recursion never
returning within the supplied oracle (the server kept answering 429). -/
def wp_request : List HttpResponse → Option (HttpResponse × List Nat × List Nat)
  | [] => none
  | r :: rest =>
      if r.status = 429 then
        match wp_request rest with
        | some (f, touts, waits) =>
            some (f, wpTimeoutSeconds :: touts, (r.retryAfterHint.getD 60) :: waits)
        | none => none
      else some (r, [wpTimeoutSeconds], [])

-- The FANZA identifier extractor of src/clients/wordpress.py.
-- Regexes are embedded as executable scanners over `List Char`; text is
-- modelled as ASCII (Python's `\w`/`\b` are Unicode-aware, but every
-- property below exercises ASCII text only).

/-- `[0-9a-z_]` under `(?i)` : the word characters of the id regexes. -/
def isWordChar (c : Char) : Bool := c.isAlphanum || c = '_'

/-- `[0-9a-z_-]` under `(?i)` : the lookahead class of the id regexes. -/
def isRunChar (c : Char) : Bool := isWordChar c || c = '-'

/-- The capture class `[A-Za-z0-9_\\-]` of the `cid=` regexes (the doubled
backslash inside the raw string makes a literal backslash part of the
class). -/
def cidCaptureChar (c : Char) : Bool :=
  c.isAlphanum || c = '_' || c = '-' || c = '\\'

/-- The capture class `[A-Za-z0-9_\-]` of the image-URL regexes. -/
def urlCaptureChar (c : Char) : Bool := c.isAlphanum || c = '_' || c = '-'

/-- Python `\s` (ASCII part). -/
def pyWhitespace (c : Char) : Bool :=
  c = ' ' || c = '\t' || c = '\n' || c = '\r' || c = '\x0b' || c = '\x0c'

/-- The segment class `[^\"'\s]` of the image-URL regexes. -/
def urlSegChar (c : Char) : Bool := !(c = '"' || c = '\'' || pyWhitespace c)

/-- Split on `-` keeping empty tokens, as Python's `str.split("-")`. -/
def splitGroups : List Char → List (List Char)
  | [] => [[]]
  | c :: cs =>
      match splitGroups cs with
      | [] => [[]]
      | g :: gs => if c = '-' then [] :: g :: gs else (c :: g) :: gs

/-- Join with `-`, as Python's `"-".join`. -/
def joinHyphen : List (List Char) → List Char
  | [] => []
  | [g] => g
  | g :: gs => g ++ '-' :: joinHyphen gs

/-- A group can host the trailing `[0-9a-z_]+`-then-`\d` of the id
regexes: at least two characters and it ends in a digit. -/
def groupEndsOk (g : List Char) : Bool :=
  2 ≤ g.length && (match g.getLast? with | some c => c.isDigit | none => false)

/-- Full match of `_FANZA_ID_RE` (equivalently `_FANZA_ID_TEXT_RE`, whose
extra `\b` anchors are vacuous under fullmatch):
`(?i)(?=[0-9a-z_-]*[a-z])(?=[0-9a-z_-]*\d)[0-9a-z_]+(?:-[0-9a-z_]+)*\d$`.
The body forces hyphen-separated nonempty word-character groups whose
last group ends in a digit preceded by at least one more group character
(so it has length at least two); on a full match the lookaheads reduce to
"contains a letter" and "contains a digit". -/
def fanza_id_fullmatch (s : List Char) : Bool :=
  let gs := splitGroups s
  gs.all (fun g => !g.isEmpty && g.all isWordChar)
  && (match gs.getLast? with | some g => groupEndsOk g | none => false)
  && s.any (fun c => c.isAlpha)
  && s.any (fun c => c.isDigit)

/-- `WPClient._extract_fanza_id_from_slug` (wordpress.py lines 71-94):
lower-case the slug, split on hyphens dropping empty tokens, and try the
suffix of the last 1, then 2, then 3 tokens, returning the first that
fully matches `_FANZA_ID_RE`. -/
def extract_fanza_id_from_slug (slug : String) : Option String :=
  if slug = "" then none
  else
    let parts := (splitGroups (slug.data.map Char.toLower)).filter
      (fun g => !g.isEmpty)
    let tryN := fun (n : Nat) =>
      if n ≤ parts.length then
        let cand := joinHyphen (parts.drop (parts.length - n))
        if fanza_id_fullmatch cand then some (String.mk cand) else none
      else none
    ((tryN 1).orElse (fun _ => tryN 2)).orElse (fun _ => tryN 3)

/-- Largest suffix position hosting a group that can end a match: returns
the prefix of the group list up to and including the last group with
`groupEndsOk`, together with that group's index. -/
def lastGoodPrefix : List (List Char) → Option (List (List Char) × Nat)
  | [] => none
  | g :: gs =>
      match lastGoodPrefix gs with
      | some (pre, j) => some (g :: pre, j + 1)
      | none => if groupEndsOk g then some ([g], 0) else none

/-- `findall` of `_FANZA_ID_TEXT_RE` restricted to the hyphen-split groups
of one maximal `[0-9a-z_-]`-run of the text. A match can only start at a
group start (`\b` needs a non-word predecessor, and every in-run
predecessor except `-` is a word character) and must end at a group end
that satisfies `groupEndsOk` (the trailing `\d` needs a preceding group
character, and `\b` forbids stopping before a word character); the two
lookaheads scan `[0-9a-z_-]*`, i.e. to the end of the run, so they only
require a letter and a digit somewhere in the remaining groups; the
greedy body with backtracking picks the furthest ending group reachable
through nonempty groups; scanning resumes after the match. Fuel-based
recursion; every step consumes at least one group, so `length + 1` fuel
suffices. -/
def scanGroups : Nat → List (List Char) → List (List Char)
  | 0, _ => []
  | _ + 1, [] => []
  | fuel + 1, g :: gs =>
      if !g.isEmpty && (g :: gs).any (fun x => x.any Char.isAlpha)
          && (g :: gs).any (fun x => x.any Char.isDigit) then
        match lastGoodPrefix (g :: gs.takeWhile (fun x => !x.isEmpty)) with
        | some (pre, j) => joinHyphen pre :: scanGroups fuel (gs.drop j)
        | none => scanGroups fuel gs
      else scanGroups fuel gs

/-- Maximal runs of `[0-9a-z_-]` characters; matches of the text regex
never cross a run boundary. Fuel-based; each step consumes a character. -/
def splitRuns : Nat → List Char → List (List Char)
  | 0, _ => []
  | _ + 1, [] => []
  | fuel + 1, c :: cs =>
      if isRunChar c then
        (c :: cs.takeWhile isRunChar) :: splitRuns fuel (cs.dropWhile isRunChar)
      else splitRuns fuel cs

/-- All matches of `_FANZA_ID_TEXT_RE` in the text, in order. -/
def findall_fanza_text (s : List Char) : List (List Char) :=
  ((splitRuns (s.length + 1) s).map
    (fun run =>
      let gs := splitGroups run
      scanGroups (gs.length + 1) gs)).flatten

/-- `WPClient._extract_fanza_id_from_text` (wordpress.py lines 86-94):
`findall` the text regex and return the last match, lower-cased; `None`
on empty text or no match. -/
def extract_fanza_id_from_text (t : String) : Option String :=
  if t = "" then none
  else
    match (findall_fanza_text t.data).getLast? with
    | some m => some (String.mk (m.map Char.toLower))
    | none => none

/-- Hexadecimal digit value. -/
def hexVal (c : Char) : Option Nat :=
  if c.isDigit then some (c.toNat - 48)
  else if 97 ≤ c.toNat && c.toNat ≤ 102 then some (c.toNat - 87)
  else if 65 ≤ c.toNat && c.toNat ≤ 70 then some (c.toNat - 55)
  else none

/-- Parse the HTML character reference starting at the given text, which
begins with the character after `&`; returns the decoded character and how
many characters (after the `&`) were consumed. Models the common subset
of Python's `html.unescape`: the five XML named references and decimal or
hexadecimal numeric references (the full named table is irrelevant to the
identifier patterns, which only involve these). -/
def matchCharRef (l : List Char) : Option (Char × Nat) :=
  if "amp;".data.isPrefixOf l then some ('&', 4)
  else if "lt;".data.isPrefixOf l then some ('<', 3)
  else if "gt;".data.isPrefixOf l then some ('>', 3)
  else if "quot;".data.isPrefixOf l then some ('"', 5)
  else if "apos;".data.isPrefixOf l then some ('\'', 5)
  else
    match l with
    | '#' :: 'x' :: rest =>
        let ds := rest.takeWhile (fun c => (hexVal c).isSome)
        let v := ds.foldl (fun a c => a * 16 + ((hexVal c).getD 0)) 0
        if ds.isEmpty then none
        else match rest.drop ds.length with
          | ';' :: _ =>
              if _h : Nat.isValidChar v then some (Char.ofNat v, ds.length + 3)
              else none
          | _ => none
    | '#' :: rest =>
        let ds := rest.takeWhile Char.isDigit
        let v := ds.foldl (fun a c => a * 10 + (c.toNat - 48)) 0
        if ds.isEmpty then none
        else match rest.drop ds.length with
          | ';' :: _ =>
              if _h : Nat.isValidChar v then some (Char.ofNat v, ds.length + 2)
              else none
          | _ => none
    | _ => none

/-- `html.unescape` over the modelled reference subset. Fuel-based; each
step consumes at least one character. -/
def htmlUnescape : Nat → List Char → List Char
  | 0, l => l
  | _ + 1, [] => []
  | fuel + 1, c :: cs =>
      if c = '&' then
        match matchCharRef cs with
        | some (ch, k) => ch :: htmlUnescape fuel (cs.drop k)
        | none => c :: htmlUnescape fuel cs
      else c :: htmlUnescape fuel cs

/-- `urllib.parse.unquote`, ASCII subset: decode `%XX` when `XX` is a hex
byte below 128 (multi-byte UTF-8 decoding is irrelevant to the ASCII
identifier patterns); other text is kept verbatim. Fuel-based. -/
def urlUnquote : Nat → List Char → List Char
  | 0, l => l
  | _ + 1, [] => []
  | fuel + 1, c :: cs =>
      if c = '%' then
        match cs with
        | h1 :: h2 :: rest =>
            match hexVal h1, hexVal h2 with
            | some v1, some v2 =>
                if v1 * 16 + v2 < 128 then
                  Char.ofNat (v1 * 16 + v2) :: urlUnquote fuel rest
                else c :: urlUnquote fuel cs
            | _, _ => c :: urlUnquote fuel cs
        | _ => c :: urlUnquote fuel cs
      else c :: urlUnquote fuel cs

/-- `re.search` for one of the `_CID_RE_LIST` patterns
(`key([A-Za-z0-9_\\-]+)` for key `cid=`, `cid%3d` or `content_id=`,
applied to lower-cased text): at the first key occurrence followed by a
nonempty capture-class run, capture that maximal run; otherwise keep
scanning. -/
def scanLiteralCapture (key : List Char) : List Char → Option (List Char)
  | [] => none
  | c :: cs =>
      if key.isPrefixOf (c :: cs) then
        let caps := ((c :: cs).drop key.length).takeWhile cidCaptureChar
        if caps.isEmpty then scanLiteralCapture key cs else some caps
      else scanLiteralCapture key cs

/-- `(?:jpg|jpeg|png)` at this position (no anchor after it). -/
def extTailOk (l : List Char) : Bool :=
  "jpg".data.isPrefixOf l || "jpeg".data.isPrefixOf l || "png".data.isPrefixOf l

/-- Greedy `\d+` of `(?:-\d+)?` with backtracking: try the digit prefix
lengths from `k` down to 1, each followed by `\.(?:jpg|jpeg|png)`. -/
def digitsBacktrack : Nat → List Char → Bool
  | 0, _ => false
  | k + 1, l1 =>
      (match l1.drop (k + 1) with
       | '.' :: l2 => extTailOk l2
       | _ => false)
      || digitsBacktrack k l1

/-- `(?:-\d+)?\.(?:jpg|jpeg|png)` at this position; the greedy optional
group is tried first, absence second. -/
def optDigitsDotExt (l : List Char) : Bool :=
  (match l with
   | '-' :: l1 => digitsBacktrack (l1.takeWhile Char.isDigit).length l1
   | _ => false)
  || (match l with
      | '.' :: l2 => extTailOk l2
      | _ => false)

/-- `(?:pl|jp)(?:-\d+)?\.(?:jpg|jpeg|png)` at this position. -/
def capTail (l : List Char) : Bool :=
  if "pl".data.isPrefixOf l || "jp".data.isPrefixOf l then
    optDigitsDotExt (l.drop 2)
  else false

/-- Greedy capture `([A-Za-z0-9_\-]+)` with backtracking: try capture
lengths from `k` down to 1, each followed by `capTail`. -/
def capBacktrack : Nat → List Char → Option (List Char)
  | 0, _ => none
  | k + 1, l =>
      if capTail (l.drop (k + 1)) then some (l.take (k + 1))
      else capBacktrack k l

/-- `([A-Za-z0-9_\-]+)(?:pl|jp)(?:-\d+)?\.(?:jpg|jpeg|png)` at this
position. -/
def tailAfterSlash (l : List Char) : Option (List Char) :=
  capBacktrack (l.takeWhile urlCaptureChar).length l

/-- Greedy `[^\"'\s]+/` with backtracking: the head length is tried from
`k` down to 1; the character after the head must be `/`, then
`tailAfterSlash` must match. -/
def segSplitScan : Nat → List Char → Option (List Char)
  | 0, _ => none
  | k + 1, l =>
      (match l.drop (k + 1) with
       | '/' :: l2 => tailAfterSlash l2
       | _ => none).orElse
        (fun _ => segSplitScan k l)

/-- `re.search` of
`pics\.dmm\.co\.jp/(?:digital|mono)/[^/]+/([A-Za-z0-9_\-]+)/`
on lower-cased text: at each occurrence of the literal prefix, the
alternation and the two greedy segments are deterministic as analysed in
their doc comments; the first occurrence at which the rest matches wins. -/
def pat1Scan : List Char → Option (List Char)
  | [] => none
  | c :: cs =>
      if "pics.dmm.co.jp/".data.isPrefixOf (c :: cs) then
        match
          (match
            (if "digital/".data.isPrefixOf ((c :: cs).drop 15) then
              some ((c :: cs).drop 23)
             else if "mono/".data.isPrefixOf ((c :: cs).drop 15) then
              some ((c :: cs).drop 20)
             else none) with
           | none => none
           | some l1 =>
               let seg := l1.takeWhile (fun ch => !(ch = '/'))
               if seg.isEmpty then none
               else
                 match l1.drop seg.length with
                 | '/' :: l2 =>
                     let cap := l2.takeWhile urlCaptureChar
                     if cap.isEmpty then none
                     else
                       match l2.drop cap.length with
                       | '/' :: _ => some cap
                       | _ => none
                 | _ => none) with
        | some cap => some cap
        | none => pat1Scan cs
      else pat1Scan cs

/-- `re.search` of
`pics\.dmm\.co\.jp/[^\"'\s]+/([A-Za-z0-9_\-]+)(?:pl|jp)(?:-\d+)?\.(?:jpg|jpeg|png)`
on lower-cased text. -/
def pat2Scan : List Char → Option (List Char)
  | [] => none
  | c :: cs =>
      if "pics.dmm.co.jp/".data.isPrefixOf (c :: cs) then
        match
          segSplitScan (((c :: cs).drop 15).takeWhile urlSegChar).length
            ((c :: cs).drop 15) with
        | some cap => some cap
        | none => pat2Scan cs
      else pat2Scan cs

/-- `re.search` of
`/wp-content/uploads/[^\"'\s]+/([A-Za-z0-9_\-]+)(?:pl|jp)(?:-\d+)?\.(?:jpg|jpeg|png)`
on lower-cased text. -/
def pat3Scan : List Char → Option (List Char)
  | [] => none
  | c :: cs =>
      if "/wp-content/uploads/".data.isPrefixOf (c :: cs) then
        match
          segSplitScan (((c :: cs).drop 20).takeWhile urlSegChar).length
            ((c :: cs).drop 20) with
        | some cap => some cap
        | none => pat3Scan cs
      else pat3Scan cs

/-- Keep an image-URL capture only if `_FANZA_ID_TEXT_RE.fullmatch`
accepts it (wordpress.py lines 117-121). -/
def shapeFiltered (o : Option (List Char)) : Option (List Char) :=
  match o with
  | some cap => if fanza_id_fullmatch cap then some cap else none
  | none => none

/-- The scan order of `_extract_fanza_id_from_content` on the normalized
body: the three cid regexes (whose captures are returned unchecked),
then the three image-URL regexes (whose captures must pass the shape
fullmatch). -/
def content_scan (s : List Char) : Option (List Char) :=
  ((((scanLiteralCapture "cid=".data s).orElse
      (fun _ => scanLiteralCapture "cid%3d".data s)).orElse
      (fun _ => scanLiteralCapture "content_id=".data s)).orElse
      (fun _ => shapeFiltered (pat1Scan s))).orElse
      (fun _ => (shapeFiltered (pat2Scan s)).orElse
        (fun _ => shapeFiltered (pat3Scan s)))

/-- `WPClient._extract_fanza_id_from_content` (wordpress.py lines
96-123): on non-empty rendered HTML, unescape HTML character references
once, URL-unquote once, then scan with the cid and image-URL patterns
(scanning lower-cased text directly — the regexes are case-insensitive
and every captured character class is closed under case, and the method
lower-cases the capture it returns). -/
def extract_fanza_id_from_content (rendered : String) : Option String :=
  if rendered = "" then none
  else
    let s1 := htmlUnescape (rendered.data.length + 1) rendered.data
    let s2 := urlUnquote (s1.length + 1) s1
    (content_scan (s2.map Char.toLower)).map String.mk

/-- A remote WordPress post as the extractor sees it: the requested
fields `id,slug,meta,content` plus title/excerpt (`meta` holds the
`fanza_product_id` key when present; rendered content/title/excerpt are
plain strings). -/
structure WpPost where
  id : Option Nat
  meta : Option String
  slug : String
  content : String
  title : String
  excerpt : String
deriving DecidableEq, Repr

/-- `WPClient.extract_fanza_id` (wordpress.py lines 125-146): the
metadata field if present and non-empty, else the slug suffix, else the
body patterns, else the title scan, else the excerpt scan; the first
source to yield a candidate wins, the result is lower-cased, and `none`
is returned when every step fails. -/
def extract_fanza_id (p : WpPost) : Option String :=
  let step1 : Option String :=
    match p.meta with
    | some m => if m = "" then none else some m
    | none => none
  let fid :=
    (((step1.orElse (fun _ => extract_fanza_id_from_slug p.slug)).orElse
      (fun _ => extract_fanza_id_from_content p.content)).orElse
      (fun _ => extract_fanza_id_from_text p.title)).orElse
      (fun _ => extract_fanza_id_from_text p.excerpt)
  fid.map lowerStr

/-- The spec's identifier shape rule (spec section 4.2): at least one
letter, at least one digit, only letters/digits/underscore/hyphen, and a
trailing digit. -/
def spec_shape_rule (s : String) : Bool :=
  s.data.any Char.isAlpha && s.data.any Char.isDigit
  && s.data.all (fun c => c.isAlphanum || c = '_' || c = '-')
  && (match s.data.getLast? with | some c => c.isDigit | none => false)

/-- One page fetch of `WPClient.iter_posts` as the sync sees it: a page
of posts, or the exception a failed fetch raises. -/
abbrev PageResult := Except String (List WpPost)

/-- Whether a page fetch raised. -/
def pageIsError : PageResult → Bool
  | .error _ => true
  | .ok _ => false

/-- The remote walk of `sync_wp_cache`: consume pages in order; the first
failing fetch aborts the walk with its exception (nothing scanned so far
has been written to the store — the loop only accumulates in-memory
lists). -/
def collect_pages : List PageResult → Except String (List WpPost)
  | [] => .ok []
  | p :: ps =>
      match p with
      | .error e => .error e
      | .ok posts =>
          match collect_pages ps with
          | .error e => .error e
          | .ok rest => .ok (posts ++ rest)

/-- The per-post body of the sync loop (run_batch.py lines 80-94):
extract the FANZA id of each post and collect `(fanza_id, post_id)`
pairs, de-duplicating by id within the pass (first occurrence wins). -/
def collect_items (posts : List WpPost) : List (String × Option Nat) :=
  (posts.foldl
    (fun (st : List String × List (String × Option Nat)) post =>
      match extract_fanza_id post with
      | some fid =>
          if fid ∈ st.1 then st else (fid :: st.1, st.2 ++ [(fid, post.id)])
      | none => st)
    ([], [])).2

/-- `sync_wp_cache` (run_batch.py lines 54-97), with the paginated remote
walk supplied as a page oracle: walk all pages collecting identifier
pairs; only when the whole walk succeeded, bulk-upsert the pairs with
status `published` and then set the `wp_last_sync_at` meta key to the
current time; a failing fetch propagates before either write happens.
(The cursor read at lines 62-72 only shapes the `after` parameter sent to
the remote side, which the page oracle already reflects.) Returns the
rows, the meta table, and whether the pass completed. -/
def sync_wp_cache (rows : Store) (meta : MetaTable) (pages : List PageResult)
    (now : String) : Store × MetaTable × Bool :=
  match collect_pages pages with
  | .error _ => (rows, meta, false)
  | .ok posts =>
      let r := bulk_mark_posted rows (collect_items posts) "published" now
      (r.1, set_meta meta "wp_last_sync_at" now, true)

-- Theorems about the embedded definitions.

-- Basic lemmas about the association-list store.

theorem lookupRow_upsert_self (s : Store) (pid : String) (r : Row) :
    lookupRow (upsertRow s pid r) pid = some r := by
  induction s with
  | nil => simp [upsertRow, lookupRow, List.find?]
  | cons e rest ih =>
      obtain ⟨k, v⟩ := e
      by_cases h : k = pid
      · simp [upsertRow, h, lookupRow, List.find?]
      · simpa [upsertRow, h, lookupRow, List.find?] using ih

theorem lookupRow_upsert_other (s : Store) (pid q : String) (r : Row)
    (h : q ≠ pid) : lookupRow (upsertRow s pid r) q = lookupRow s q := by
  have hpq : ¬ (pid = q) := fun h' => h h'.symm
  induction s with
  | nil => simp [upsertRow, lookupRow, List.find?, hpq]
  | cons e rest ih =>
      obtain ⟨k, v⟩ := e
      by_cases hk : k = pid
      · subst hk
        simp [upsertRow, lookupRow, List.find?, hpq]
      · simp only [upsertRow, if_neg hk]
        by_cases hq : k = q
        · simp [lookupRow, List.find?, hq]
        · simp only [lookupRow, List.find?] at ih ⊢
          simp only [hq, decide_eq_false (fun h' => hq h'), Bool.false_eq_true]
          simpa using ih

theorem lookupRow_cons_other (s : Store) (pid q : String) (r : Row)
    (h : q ≠ pid) : lookupRow ((pid, r) :: s) q = lookupRow s q := by
  have : ¬ (pid = q) := fun h' => h h'.symm
  simp [lookupRow, List.find?, this]

theorem lookupRow_eq_none_of_not_mem (s : Store) (pid : String)
    (h : pid ∉ s.map Prod.fst) : lookupRow s pid = none := by
  induction s with
  | nil => simp [lookupRow, List.find?]
  | cons e rest ih =>
      obtain ⟨k, v⟩ := e
      simp only [List.map_cons, List.mem_cons, not_or] at h
      have hk : ¬ (k = pid) := fun h' => h.1 (by simp [h'])
      simp only [lookupRow, List.find?, decide_eq_false hk, Bool.false_eq_true]
      exact ih h.2

theorem lookupRow_filter_of_not_mem (s : Store) (pid : String)
    (p : String × Row → Bool) (h : pid ∉ s.map Prod.fst) :
    lookupRow (s.filter p) pid = none := by
  apply lookupRow_eq_none_of_not_mem
  intro hmem
  exact h (by
    obtain ⟨e, he, hk⟩ := List.mem_map.mp hmem
    exact List.mem_map.mpr ⟨e, (List.mem_filter.mp he).1, hk⟩)

theorem lookupRow_filter (s : Store) (pid : String) (r : Row)
    (p : String × Row → Bool) (hnd : KeysNodup s)
    (h : lookupRow s pid = some r) :
    lookupRow (s.filter p) pid = if p (pid, r) then some r else none := by
  induction s with
  | nil => simp [lookupRow, List.find?] at h
  | cons e rest ih =>
      obtain ⟨k, v⟩ := e
      have hnd' : KeysNodup rest := (List.nodup_cons.mp hnd).2
      have hk_not : k ∉ rest.map Prod.fst := (List.nodup_cons.mp hnd).1
      by_cases hk : k = pid
      · subst hk
        have hv : v = r := by
          simpa [lookupRow, List.find?] using h
        subst hv
        by_cases hp : p (k, v)
        · simp [List.filter_cons, hp, lookupRow, List.find?]
        · simp only [List.filter_cons, hp, Bool.false_eq_true, if_false, if_neg hp]
          exact lookupRow_filter_of_not_mem rest k p hk_not
      · have h' : lookupRow rest pid = some r := by
          simpa [lookupRow, List.find?, decide_eq_false hk] using h
        by_cases hp : p (k, v)
        · simpa [List.filter_cons, hp, lookupRow, List.find?, decide_eq_false hk]
            using ih hnd' h'
        · simpa [List.filter_cons, hp] using ih hnd' h'

theorem terminal_ne_claimed (st : String) (h : isTerminalStatus st = true) :
    st ≠ "claimed" := by
  simp only [isTerminalStatus, Bool.or_eq_true, decide_eq_true_eq] at h
  rcases h with ((h | h) | h) | h <;> subst h <;> decide

theorem iter_try_start_posted (pid now : String) :
    ∀ (n : Nat) (s : Store), (lookupRow s pid).isSome →
      iter_try_start s pid now n = (s, 0) := by
  intro n
  induction n with
  | zero => intro s _; rfl
  | succ m ih =>
      intro s hs
      have h1 : try_start s pid now = (s, false) := by
        simp [try_start, hs]
      simp [iter_try_start, h1, ih s hs]

theorem iter_try_start_le_one (pid now : String) :
    ∀ (n : Nat) (s : Store), (iter_try_start s pid now n).2 ≤ 1 := by
  intro n
  induction n with
  | zero => intro s; simp [iter_try_start]
  | succ m ih =>
      intro s
      by_cases hs : (lookupRow s pid).isSome
      · simp [iter_try_start, try_start, hs, (iter_try_start_posted pid now m s hs)]
      · have h1 : try_start s pid now
            = ((pid, ⟨"claimed", none, now, none⟩) :: s, true) := by
          simp [try_start, hs]
        have h2 : (lookupRow ((pid, (⟨"claimed", none, now, none⟩ : Row)) :: s) pid).isSome := by
          simp [lookupRow, List.find?]
        simp [iter_try_start, h1, iter_try_start_posted pid now m _ h2]

/-- Claim C1: `try_claim` (pipeline name `try_start`) inserts a row with
status `claimed` iff no row currently exists for the identifier, returns
true exactly when that insert happened, leaves the store unchanged when it
returns false, and under any number N >= 1 of sequential invocations for
the same identifier (the serialization of N concurrent workers) exactly one
call succeeds when no row existed, and never more than one call succeeds. -/
theorem try_start_claim_protocol (s : Store) (pid now : String) :
    ((try_start s pid now).2 = true ↔ lookupRow s pid = none)
    ∧ ((try_start s pid now).2 = true →
        lookupRow (try_start s pid now).1 pid = some ⟨"claimed", none, now, none⟩
        ∧ ∀ q, q ≠ pid → lookupRow (try_start s pid now).1 q = lookupRow s q)
    ∧ ((try_start s pid now).2 = false → (try_start s pid now).1 = s)
    ∧ (lookupRow s pid = none → ∀ n, 1 ≤ n →
        (iter_try_start s pid now n).2 = 1)
    ∧ (∀ n, (iter_try_start s pid now n).2 ≤ 1) := by
  by_cases hs : (lookupRow s pid).isSome
  · refine ⟨?_, ?_, ?_, ?_, fun n => iter_try_start_le_one pid now n s⟩
    · simp [try_start, hs, Option.isSome_iff_ne_none.mp hs]
    · intro h
      simp [try_start, hs] at h
    · intro _
      simp [try_start, hs]
    · intro hnone
      rw [hnone] at hs
      simp at hs
  · have hnone : lookupRow s pid = none := Option.not_isSome_iff_eq_none.mp hs
    refine ⟨?_, ?_, ?_, ?_, fun n => iter_try_start_le_one pid now n s⟩
    · simp [try_start, hs, hnone]
    · intro _
      constructor
      · simp only [try_start, hs, Bool.false_eq_true, if_false]
        simp [lookupRow, List.find?]
      · intro q hq
        simp only [try_start, hs, Bool.false_eq_true, if_false]
        exact lookupRow_cons_other s pid q _ hq
    · intro h
      simp [try_start, hs] at h
    · intro _ n hn
      obtain ⟨m, rfl⟩ : ∃ m, n = m + 1 := ⟨n - 1, by omega⟩
      have h1 : try_start s pid now
          = ((pid, ⟨"claimed", none, now, none⟩) :: s, true) := by
        simp [try_start, hs]
      have h2 : (lookupRow ((pid, (⟨"claimed", none, now, none⟩ : Row)) :: s) pid).isSome := by
        simp [lookupRow, List.find?]
      simp [iter_try_start, h1, iter_try_start_posted pid now m _ h2]

/-- Witness for C1 at a concrete input: from the empty store, three
sequential claim attempts for `ipx-123` succeed exactly once. -/
theorem try_start_claim_protocol_witness :
    (iter_try_start [] "ipx-123" "t0" 3).2 = 1 :=
  (try_start_claim_protocol [] "ipx-123" "t0").2.2.2.1 rfl 3 (by omega)

theorem select_candidates_mem (store : Store) (poolSize : Nat) :
    ∀ (batch : List FetchedItem) (seen : List String) (acc : List FetchedItem)
      (item : FetchedItem),
      item ∈ (select_candidates store poolSize seen acc batch).2 →
      item ∈ acc ∨ is_posted store (lowerStr item.productId) = false := by
  intro batch
  induction batch with
  | nil =>
      intro seen acc item h
      exact Or.inl (by simpa [select_candidates] using h)
  | cons it rest ih =>
      intro seen acc item h
      simp only [select_candidates] at h
      by_cases hseen : lowerStr it.productId ∈ seen
      · simp only [if_pos hseen] at h
        exact ih _ _ _ h
      · simp only [if_neg hseen] at h
        by_cases hp : is_posted store (lowerStr it.productId)
        · simp only [if_pos hp] at h
          by_cases hfull : poolSize ≤ acc.length
          · simp only [if_pos hfull] at h
            exact Or.inl h
          · simp only [if_neg hfull] at h
            exact ih _ _ _ h
        · simp only [if_neg hp] at h
          have hstep : item ∈ acc ++ [it] →
              item ∈ acc ∨ is_posted store (lowerStr item.productId) = false := by
            intro hmem
            rcases List.mem_append.mp hmem with hin | hone
            · exact Or.inl hin
            · have : item = it := by simpa using hone
              subst this
              exact Or.inr (by simpa using hp)
          by_cases hfull : poolSize ≤ (acc ++ [it]).length
          · simp only [if_pos hfull] at h
            exact hstep h
          · simp only [if_neg hfull] at h
            rcases ih _ _ _ h with hin | hpost
            · exact hstep hin
            · exact Or.inr hpost

/-- Claim C2: duplicate suppression is presence-based. After
`record_success` with any status (`drafted`, `published`, `dry_run`) or
`record_failure`, `is_posted` answers true for that identifier, and every
candidate surviving the run_batch filter loop either was already in the
pool accumulator or has `is_posted` false for its lower-cased identifier. -/
theorem presence_based_suppression :
    (∀ (s : Store) (pid : String) (wpid : Option Nat) (st now : String),
        is_posted (record_success s pid wpid st now) pid = true)
    ∧ (∀ (s : Store) (pid msg now : String),
        is_posted (record_failure s pid msg now) pid = true)
    ∧ (∀ (store : Store) (poolSize : Nat) (seen : List String)
        (acc batch : List FetchedItem) (item : FetchedItem),
        item ∈ (select_candidates store poolSize seen acc batch).2 →
        item ∈ acc ∨ is_posted store (lowerStr item.productId) = false) := by
  refine ⟨?_, ?_, ?_⟩
  · intro s pid wpid st now
    simp [is_posted, record_success, lookupRow_upsert_self]
  · intro s pid msg now
    simp [is_posted, record_failure, lookupRow_upsert_self]
  · intro store poolSize seen acc batch item h
    exact select_candidates_mem store poolSize batch seen acc item h

/-- Witness for C2 at a concrete input: a store holding `abc-1` as
`published` suppresses a re-fetched candidate `ABC-1`, and the filter keeps
a fresh candidate only because it is not posted. -/
theorem presence_based_suppression_witness :
    is_posted (record_success [] "abc-1" (some 7) "published" "t0") "abc-1" = true
    ∧ ((⟨"XYZ-9"⟩ : FetchedItem) ∈ ([] : List FetchedItem)
        ∨ is_posted (record_success [] "abc-1" (some 7) "published" "t0")
            (lowerStr "XYZ-9") = false) :=
  ⟨presence_based_suppression.1 [] "abc-1" (some 7) "published" "t0",
   presence_based_suppression.2.2
     (record_success [] "abc-1" (some 7) "published" "t0") 5 [] []
     [⟨"ABC-1"⟩, ⟨"XYZ-9"⟩] ⟨"XYZ-9"⟩ (by decide)⟩

theorem lookupRow_filter_keep (s : Store) (pid : String) (r : Row)
    (p : String × Row → Bool) (h : lookupRow s pid = some r)
    (hp : p (pid, r) = true) : lookupRow (s.filter p) pid = some r := by
  induction s with
  | nil => simp [lookupRow, List.find?] at h
  | cons e rest ih =>
      obtain ⟨k, v⟩ := e
      by_cases hk : k = pid
      · subst hk
        have hv : v = r := by simpa [lookupRow, List.find?] using h
        subst hv
        simp [List.filter_cons, hp, lookupRow, List.find?]
      · have h' : lookupRow rest pid = some r := by
          simpa [lookupRow, List.find?, decide_eq_false hk] using h
        by_cases hpe : p (k, v)
        · simpa [List.filter_cons, hpe, lookupRow, List.find?, decide_eq_false hk]
            using ih h'
        · simpa [List.filter_cons, hpe] using ih h'

theorem filter_split_length (s : Store) :
    (s.filter (fun e => e.2.status ≠ "failed")).length
      + (s.filter (fun e => e.2.status = "failed")).length = s.length := by
  induction s with
  | nil => simp
  | cons e rest ih =>
      by_cases hp : e.2.status = "failed"
      · simp only [ne_eq] at ih ⊢
        simp [List.filter_cons, hp] at ih ⊢
        omega
      · simp only [ne_eq] at ih ⊢
        simp [List.filter_cons, hp] at ih ⊢
        omega

/-- Claim C3: failed rows and only failed rows are retry-eligible. After
`record_failure(pid, msg)` the identifier is still suppressed;
`clear_failed` removes exactly the rows with status `failed` (the deleted
and kept rows partition the table), returns the number removed, and after
it every previously failed identifier is no longer posted while every row
of another status is looked up unchanged. -/
theorem clear_failed_retry_eligibility :
    (∀ (s : Store) (pid msg now : String),
        is_posted (record_failure s pid msg now) pid = true
        ∧ statusOf (record_failure s pid msg now) pid = some "failed")
    ∧ (∀ s : Store, (clear_failed s).1.length + (clear_failed s).2 = s.length)
    ∧ (∀ s : Store, (clear_failed s).2
        = s.countP (fun e => e.2.status = "failed"))
    ∧ (∀ s : Store, ∀ e ∈ (clear_failed s).1, e.2.status ≠ "failed")
    ∧ (∀ (s : Store) (pid : String) (r : Row), KeysNodup s →
        lookupRow s pid = some r → r.status = "failed" →
        is_posted (clear_failed s).1 pid = false)
    ∧ (∀ (s : Store) (pid : String) (r : Row),
        lookupRow s pid = some r → r.status ≠ "failed" →
        lookupRow (clear_failed s).1 pid = some r) := by
  refine ⟨?_, ?_, ?_, ?_, ?_, ?_⟩
  · intro s pid msg now
    constructor
    · simp [is_posted, record_failure, lookupRow_upsert_self]
    · simp [statusOf, record_failure, lookupRow_upsert_self]
  · intro s
    exact filter_split_length s
  · intro s
    simp [clear_failed, List.countP_eq_length_filter]
  · intro s e he
    have := (List.mem_filter.mp he).2
    simpa using this
  · intro s pid r hnd h hfail
    have := lookupRow_filter s pid r (fun e => e.2.status ≠ "failed") hnd h
    simp only [hfail] at this
    simp only [clear_failed, is_posted, this]
    simp
  · intro s pid r h hne
    exact lookupRow_filter_keep s pid r _ h (by simpa using hne)

/-- Witness for C3 at a concrete input: after failing `a-1` and drafting
`b-2`, clear_failed removes `a-1`, keeps `b-2`, and reports one deletion. -/
theorem clear_failed_retry_eligibility_witness :
    is_posted (record_failure [] "a-1" "boom" "t0") "a-1" = true
    ∧ is_posted (clear_failed (record_failure
        (record_success [] "b-2" (some 3) "drafted" "t0") "a-1" "boom" "t1")).1
        "a-1" = false
    ∧ lookupRow (clear_failed (record_failure
        (record_success [] "b-2" (some 3) "drafted" "t0") "a-1" "boom" "t1")).1
        "b-2" = some ⟨"drafted", some 3, "t0", none⟩ :=
  ⟨(clear_failed_retry_eligibility.1 [] "a-1" "boom" "t0").1,
   clear_failed_retry_eligibility.2.2.2.2.1
     (record_failure (record_success [] "b-2" (some 3) "drafted" "t0") "a-1" "boom" "t1")
     "a-1" ⟨"failed", none, "t1", some "boom"⟩ (by decide) (by decide) rfl,
   clear_failed_retry_eligibility.2.2.2.2.2
     (record_failure (record_success [] "b-2" (some 3) "drafted" "t0") "a-1" "boom" "t1")
     "b-2" ⟨"drafted", some 3, "t0", none⟩ (by decide) (by decide)⟩

theorem statusOf_record_success_other (s : Store) (pid q : String)
    (wpid : Option Nat) (st now : String) (h : pid ≠ q) :
    statusOf (record_success s q wpid st now) pid = statusOf s pid := by
  simp [statusOf, record_success, lookupRow_upsert_other s q pid _ h]

theorem statusOf_record_failure_other (s : Store) (pid q : String)
    (msg now : String) (h : pid ≠ q) :
    statusOf (record_failure s q msg now) pid = statusOf s pid := by
  simp [statusOf, record_failure, lookupRow_upsert_other s q pid _ h]

/-- C4, amended: under the store's operations no row ever moves from a
terminal status back to `claimed`: `record_success` (with any of the
success statuses), `record_failure`, `clear_failed` and `try_start` never
leave a previously-terminal row with status `claimed` (it either keeps a
terminal status or is deleted). The original claim's further requirements
(that a row reaches a terminal status only through `claimed`, and that a
terminal row never changes to a different terminal status without an
operator-issued clear) do not hold: `record_success` and `record_failure`
overwrite unconditionally (INSERT OR REPLACE). -/
theorem no_revert_to_claimed (s : Store) (pid : String)
    (hnd : KeysNodup s) (hterm : ∃ st, statusOf s pid = some st ∧ isTerminalStatus st = true) :
    (∀ (q : String) (wpid : Option Nat) (st now : String), st ≠ "claimed" →
        statusOf (record_success s q wpid st now) pid ≠ some "claimed")
    ∧ (∀ q msg now : String,
        statusOf (record_failure s q msg now) pid ≠ some "claimed")
    ∧ statusOf (clear_failed s).1 pid ≠ some "claimed"
    ∧ (∀ q now : String,
        statusOf (try_start s q now).1 pid ≠ some "claimed") := by
  obtain ⟨st, hst, hstterm⟩ := hterm
  have hne : st ≠ "claimed" := terminal_ne_claimed st hstterm
  refine ⟨?_, ?_, ?_, ?_⟩
  · intro q wpid st' now hst'
    by_cases hq : pid = q
    · subst hq
      simp [statusOf, record_success, lookupRow_upsert_self]
      exact fun h => hst' h
    · rw [statusOf_record_success_other s pid q wpid st' now hq, hst]
      simpa using hne
  · intro q msg now
    by_cases hq : pid = q
    · subst hq
      simp [statusOf, record_failure, lookupRow_upsert_self]
    · rw [statusOf_record_failure_other s pid q msg now hq, hst]
      simpa using hne
  · obtain ⟨r, hr, hrst⟩ : ∃ r, lookupRow s pid = some r ∧ r.status = st := by
      simp only [statusOf] at hst
      cases h : lookupRow s pid with
      | none => rw [h] at hst; simp at hst
      | some r => rw [h] at hst; exact ⟨r, rfl, by simpa using hst⟩
    have hlf := lookupRow_filter s pid r (fun e => e.2.status ≠ "failed") hnd hr
    by_cases hf : r.status = "failed"
    · have h0 : lookupRow (s.filter fun e => e.2.status ≠ "failed") pid = none := by
        simpa [hf] using hlf
      simp only [clear_failed, statusOf]
      simp only [ne_eq, decide_not] at h0 ⊢
      simp [h0]
    · have h1 : lookupRow (s.filter fun e => e.2.status ≠ "failed") pid = some r := by
        simpa [hf] using hlf
      simp only [ne_eq, decide_not] at h1
      intro hcl
      apply hne
      have hrc : r.status = "claimed" := by
        simp only [clear_failed, statusOf, ne_eq, decide_not] at hcl
        rw [h1] at hcl
        simpa using hcl
      rw [hrst] at hrc
      exact hrc
  · intro q now
    by_cases hl : (lookupRow s q).isSome
    · have h0 : (try_start s q now).1 = s := by simp [try_start, hl]
      rw [h0, hst]
      simpa using hne
    · have hq : pid ≠ q := by
        intro h
        subst h
        simp only [statusOf] at hst
        cases hlp : lookupRow s pid with
        | none => rw [hlp] at hst; simp at hst
        | some r => rw [hlp] at hl; simp at hl
      have h0 : (try_start s q now).1
          = (q, (⟨"claimed", none, now, none⟩ : Row)) :: s := by
        simp [try_start, hl]
      have h2 : statusOf ((q, (⟨"claimed", none, now, none⟩ : Row)) :: s) pid
          = statusOf s pid := by
        simp [statusOf, lookupRow_cons_other s q pid _ hq]
      rw [h0, h2, hst]
      simpa using hne

/-- Counterexample to C4 as stated: starting from an empty store,
`record_success` puts `ipx-123` directly into the terminal status
`drafted` without ever passing through `claimed`, and a subsequent
`record_failure` moves the row from one terminal status (`drafted`) to a
different terminal status (`failed`) although no operator clear was
issued. -/
theorem row_status_monotonic_counterexample :
    statusOf (record_success [] "ipx-123" (some 5) "drafted" "t0") "ipx-123"
      = some "drafted"
    ∧ isTerminalStatus "drafted" = true
    ∧ statusOf (record_failure
        (record_success [] "ipx-123" (some 5) "drafted" "t0")
        "ipx-123" "boom" "t1") "ipx-123" = some "failed"
    ∧ isTerminalStatus "failed" = true
    ∧ "failed" ≠ "drafted" := by
  refine ⟨rfl, rfl, rfl, rfl, by decide⟩

/-- Witness for the amended C4 at a concrete input: a row drafted for
`x-1` never shows status `claimed` after each of the four operations. -/
theorem no_revert_to_claimed_witness :
    statusOf (record_failure [("x-1", ⟨"drafted", some 2, "t0", none⟩)]
      "x-1" "e" "t1") "x-1" ≠ some "claimed"
    ∧ statusOf (clear_failed [("x-1", (⟨"drafted", some 2, "t0", none⟩ : Row))]).1
        "x-1" ≠ some "claimed"
    ∧ statusOf (try_start [("x-1", (⟨"drafted", some 2, "t0", none⟩ : Row))]
        "x-1" "t1").1 "x-1" ≠ some "claimed" := by
  have h := no_revert_to_claimed [("x-1", ⟨"drafted", some 2, "t0", none⟩)]
    "x-1" (by decide) ⟨"drafted", rfl, rfl⟩
  exact ⟨h.2.1 "x-1" "e" "t1", h.2.2.1, h.2.2.2 "x-1" "t1"⟩

theorem toLower_toNat_of_upper (c : Char) (h1 : 65 ≤ c.toNat) (h2 : c.toNat ≤ 90) :
    (Char.toLower c).toNat = c.toNat + 32 := by
  have hv : Nat.isValidChar (c.toNat + 32) := Or.inl (by omega)
  simp only [Char.toLower, ge_iff_le, if_pos (And.intro h1 h2)]
  rw [Char.ofNat, dif_pos hv]
  rfl

theorem list_map_eq_self_forall {α : Type} (f : α → α) :
    ∀ l : List α, l.map f = l → ∀ x ∈ l, f x = x := by
  intro l
  induction l with
  | nil => intro _ x hx; simp at hx
  | cons a rest ih =>
      intro h x hx
      simp only [List.map_cons, List.cons.injEq] at h
      rcases List.mem_cons.mp hx with hx1 | hx2
      · subst hx1; exact h.1
      · exact ih h.2 x hx2

theorem lowerStr_ne_of_upper (s : String) (h : s.data.any isAsciiUpper = true) :
    lowerStr s ≠ s := by
  intro heq
  obtain ⟨c, hc, hcu⟩ := List.any_eq_true.mp h
  have hdata : s.data.map Char.toLower = s.data := congrArg String.data heq
  have hfix : Char.toLower c = c := list_map_eq_self_forall Char.toLower s.data hdata c hc
  simp only [isAsciiUpper, Bool.and_eq_true, decide_eq_true_eq] at hcu
  have := toLower_toNat_of_upper c hcu.1 hcu.2
  rw [hfix] at this
  omega

theorem run_batch_loop_total (dryRun : Bool) (now : String) :
    ∀ (items : List ItemCtx) (s : Store),
      (run_batch_loop dryRun now s items).2.1
        + (run_batch_loop dryRun now s items).2.2.1
        + (run_batch_loop dryRun now s items).2.2.2 = items.length := by
  intro items
  induction items with
  | nil => intro s; simp [run_batch_loop]
  | cons ctx rest ih =>
      intro s
      have hrec := ih (process_item s ctx dryRun now).store
      by_cases h1 : (process_item s ctx dryRun now).outcome = "success"
      · simp [run_batch_loop, h1]
        omega
      · by_cases h2 : (process_item s ctx dryRun now).outcome = "skip"
        · simp [run_batch_loop, h1, h2]
          omega
        · simp [run_batch_loop, h1, h2]
          omega

/-- Claim C8: per-candidate failure isolation. For a candidate whose claim
succeeded and which reaches the expensive work, an exception there makes
the pipeline record exactly one failure with that exception's message,
count the candidate as a failure, and leave the row failed; and the batch
loop always processes every item (successes + failures + skips equals the
batch length), so one candidate's failure never aborts the batch. -/
theorem per_candidate_failure_isolation :
    (∀ (s : Store) (ctx : ItemCtx) (dryRun : Bool) (now msg : String),
        lookupRow s (lowerStr ctx.productId) = none →
        (!dryRun && ctx.wpExistsFanza) = false →
        (!dryRun && ctx.wpExistsSlug) = false →
        ctx.hasSamples = true →
        ctx.work = .error msg →
        (process_item s ctx dryRun now).outcome = "failure"
        ∧ (process_item s ctx dryRun now).calls.count
            (.failureCall (lowerStr ctx.productId) msg) = 1
        ∧ lookupRow (process_item s ctx dryRun now).store (lowerStr ctx.productId)
            = some ⟨"failed", none, now, some msg⟩)
    ∧ (∀ (dryRun : Bool) (now : String) (items : List ItemCtx) (s : Store),
        (run_batch_loop dryRun now s items).2.1
          + (run_batch_loop dryRun now s items).2.2.1
          + (run_batch_loop dryRun now s items).2.2.2 = items.length) := by
  constructor
  · intro s ctx dryRun now msg h0 h1 h2 h3 h4
    have hns : ¬ (lookupRow s (lowerStr ctx.productId)).isSome := by
      simp [h0]
    have hred : process_item s ctx dryRun now
        = ⟨record_failure
            ((lowerStr ctx.productId, ⟨"claimed", none, now, none⟩) :: s)
            (lowerStr ctx.productId) msg now, "failure",
           [.claimCall (lowerStr ctx.productId),
            .failureCall (lowerStr ctx.productId) msg]⟩ := by
      simp [process_item, try_start, hns, h1, h2, h3, h4]
    refine ⟨by rw [hred], ?_, ?_⟩
    · rw [hred]
      simp [List.count_cons]
    · rw [hred]
      exact lookupRow_upsert_self _ _ _
  · exact fun dryRun now items s => run_batch_loop_total dryRun now items s

/-- Witness for C8 at a concrete input: claiming fresh `IPX-001` whose
generation raises `boom` yields outcome failure, one failure record, a
failed row, and a one-item batch tallies one failure. -/
theorem per_candidate_failure_isolation_witness :
    (process_item [] ⟨"IPX-001", false, false, true, .error "boom"⟩ false "t0").outcome
      = "failure"
    ∧ (process_item [] ⟨"IPX-001", false, false, true, .error "boom"⟩ false "t0").calls.count
        (.failureCall (lowerStr "IPX-001") "boom") = 1
    ∧ lookupRow (process_item [] ⟨"IPX-001", false, false, true, .error "boom"⟩ false "t0").store
        (lowerStr "IPX-001") = some ⟨"failed", none, "t0", some "boom"⟩ :=
  per_candidate_failure_isolation.1 [] ⟨"IPX-001", false, false, true, .error "boom"⟩
    false "t0" "boom" rfl rfl rfl rfl rfl

/-- Claim C10: the store applies no normalization to its key. Recording a
success under an identifier containing an upper-case letter leaves
`is_posted` false for the lower-cased identifier, and every store call the
pipeline makes uses the lower-cased identifier (the pipeline, not the
store, normalizes). -/
theorem store_uses_key_verbatim :
    (∀ (s : Store) (pid : String) (wpid : Option Nat) (st now : String),
        pid.data.any isAsciiUpper = true →
        is_posted s (lowerStr pid) = false →
        is_posted (record_success s pid wpid st now) (lowerStr pid) = false)
    ∧ (∀ (s : Store) (ctx : ItemCtx) (dryRun : Bool) (now : String),
        ∀ c ∈ (process_item s ctx dryRun now).calls,
          c.pid = lowerStr ctx.productId) := by
  constructor
  · intro s pid wpid st now hup hnot
    have hne : lowerStr pid ≠ pid := lowerStr_ne_of_upper pid hup
    rw [is_posted, record_success, lookupRow_upsert_other s pid (lowerStr pid) _ hne]
    exact hnot
  · intro s ctx dryRun now c hc
    unfold process_item at hc
    cases hb : (try_start s (lowerStr ctx.productId) now).2 with
    | false =>
        simp only [hb, Bool.not_false, if_true, List.mem_cons,
          List.not_mem_nil, or_false] at hc
        subst hc
        rfl
    | true =>
        simp only [hb, Bool.not_true, Bool.false_eq_true, if_false] at hc
        repeat' split at hc
        all_goals simp only [List.mem_cons, List.not_mem_nil, or_false] at hc
        all_goals rcases hc with rfl | rfl <;> rfl

/-- Witness for C10 at a concrete input: after recording `IPX-123`
verbatim, the lower-cased key is still unknown to the store; the
pipeline's only store call for candidate `A-1` uses `a-1`. -/
theorem store_uses_key_verbatim_witness :
    is_posted (record_success [] "IPX-123" (some 9) "drafted" "t0")
      (lowerStr "IPX-123") = false
    ∧ (StoreCall.claimCall (lowerStr "A-1")).pid = lowerStr "A-1" :=
  ⟨store_uses_key_verbatim.1 [] "IPX-123" (some 9) "drafted" "t0" (by decide) rfl,
   store_uses_key_verbatim.2 [] ⟨"A-1", false, false, false, .ok 1⟩ false "t0"
     (.claimCall (lowerStr "A-1")) (by decide)⟩

/-- Counterexample to C9 as stated: a server answering 429 twice and then
200 makes `_request` retry twice (the recursive call retries again on a
second 429), so a single 429 does not lead to just "a single retry" and
no constant bounds the retry count. -/
theorem rate_limit_single_retry_counterexample :
    wp_request [⟨429, some 1⟩, ⟨429, some 1⟩, ⟨200, none⟩]
      = some (⟨200, none⟩, [20, 20, 20], [1, 1])
    ∧ ¬ (([1, 1] : List Nat).length ≤ 1) := by
  constructor
  · rfl
  · decide

/-- C9, amended: every attempt `_request` issues carries the fixed
20-second timeout; a 429 response causes a wait of the server's
`Retry-After` hint (default 60 seconds) followed by a retry, and this
repeats while 429s continue: the number of retries equals the number of
consecutive leading 429 responses (with one wait per retry, each honoring
that response's hint), never returning a 429 to the caller — but it is not
bounded by any constant in the `_request` logic itself. -/
theorem rate_limit_retry_amended (rs : List HttpResponse) (f : HttpResponse)
    (touts waits : List Nat) (h : wp_request rs = some (f, touts, waits)) :
    f.status ≠ 429
    ∧ (∀ t ∈ touts, t = wpTimeoutSeconds)
    ∧ touts.length = waits.length + 1
    ∧ waits = (rs.takeWhile (fun r => r.status = 429)).map
        (fun r => r.retryAfterHint.getD 60) := by
  induction rs generalizing f touts waits with
  | nil => simp [wp_request] at h
  | cons r rest ih =>
      by_cases h429 : r.status = 429
      · simp only [wp_request, if_pos h429] at h
        cases hrec : wp_request rest with
        | none => rw [hrec] at h; simp at h
        | some v =>
            obtain ⟨f', touts', waits'⟩ := v
            rw [hrec] at h
            simp only [Option.some_inj, Prod.mk.injEq] at h
            obtain ⟨hf, ht, hw⟩ := h
            obtain ⟨ihf, ihts, ihlen, ihw⟩ := ih f' touts' waits' hrec
            subst hf
            subst ht
            subst hw
            refine ⟨ihf, ?_, ?_, ?_⟩
            · intro t htm
              rcases List.mem_cons.mp htm with rfl | hmem
              · rfl
              · exact ihts t hmem
            · simp [ihlen]
            · simp only [List.takeWhile_cons, decide_eq_true h429, if_true,
                List.map_cons, List.cons.injEq]
              exact ⟨trivial, ihw⟩
      · simp only [wp_request, if_neg h429] at h
        simp only [Option.some_inj, Prod.mk.injEq] at h
        obtain ⟨hf, ht, hw⟩ := h
        subst hf
        subst ht
        subst hw
        refine ⟨h429, ?_, rfl, ?_⟩
        · intro t htm
          simpa using htm
        · simp [List.takeWhile_cons, h429]

/-- Witness for the amended C9 at a concrete input: one 429 with hint 3,
then 200. -/
theorem rate_limit_retry_amended_witness :
    ((⟨200, none⟩ : HttpResponse).status ≠ 429)
    ∧ (∀ t ∈ [20, 20], t = wpTimeoutSeconds)
    ∧ ([20, 20] : List Nat).length = ([3] : List Nat).length + 1
    ∧ ([3] : List Nat)
        = (([⟨429, some 3⟩, ⟨200, none⟩] : List HttpResponse).takeWhile
            (fun r => r.status = 429)).map (fun r => r.retryAfterHint.getD 60) :=
  rate_limit_retry_amended [⟨429, some 3⟩, ⟨200, none⟩] ⟨200, none⟩
    [20, 20] [3] rfl

example : extract_fanza_id_from_slug "actress-ipx-123" = some "ipx-123" := by decide

example : extract_fanza_id_from_slug "2026-01-30" = none := by decide

example : extract_fanza_id_from_slug "no-digits-here" = none := by decide

example : extract_fanza_id_from_slug "IPX-123" = some "ipx-123" := by decide

example : extract_fanza_id_from_slug "a--b1" = some "b1" := by decide

example : extract_fanza_id_from_text "title IPX-123 here" = some "ipx-123" := by decide

example : extract_fanza_id_from_text "actress-ipx-123" = some "actress-ipx-123" := by decide

example : extract_fanza_id_from_text "12-34-ab" = some "12-34" := by decide

example : extract_fanza_id_from_text "released 2026-01-30" = none := by decide

example : extract_fanza_id_from_text "abc1 then xyz-9 no: use ipx123" = some "ipx123" := by decide

example : extract_fanza_id_from_text "" = none := by decide

example : extract_fanza_id_from_content "cid=2026" = some "2026" := by decide

example : extract_fanza_id_from_content "" = none := by decide

example : extract_fanza_id_from_content "x cid=! content_id=ABC-12 y" = some "abc-12" := by decide

example : extract_fanza_id_from_content
    "src=https://pics.dmm.co.jp/digital/video/ipx00123/ipx00123pl.jpg" = some "ipx00123" := by decide

example : extract_fanza_id ⟨some 1, some "IPX-123", "", "", "", ""⟩ = some "ipx-123" := by decide

example : extract_fanza_id ⟨none, none, "actress-ipx-123", "", "", ""⟩ = some "ipx-123" := by decide

example : extract_fanza_id ⟨none, some "", "x", "cid=VRKM01763 y", "", ""⟩ = some "vrkm01763" := by decide

example : extract_fanza_id ⟨none, none, "2026-01-30", "", "title ABC-12", ""⟩ = some "abc-12" := by decide

example : extract_fanza_id ⟨none, none, "", "", "", "see SSIS-123"⟩ = some "ssis-123" := by decide

example : extract_fanza_id ⟨none, none, "2026-01-30", "", "", ""⟩ = none := by decide

theorem char_toLower_unfold (d : Char) :
    Char.toLower d = if 65 ≤ d.toNat ∧ d.toNat ≤ 90 then
      Char.ofNat (d.toNat + 32) else d := rfl

theorem toLower_idem (c : Char) :
    Char.toLower (Char.toLower c) = Char.toLower c := by
  by_cases h : 65 ≤ c.toNat ∧ c.toNat ≤ 90
  · have h1 := toLower_toNat_of_upper c h.1 h.2
    rw [char_toLower_unfold (Char.toLower c), if_neg]
    rw [h1]
    omega
  · have h0 : Char.toLower c = c := by
      rw [char_toLower_unfold c, if_neg h]
    rw [h0]
    exact h0

theorem lowerStr_idem (s : String) : lowerStr (lowerStr s) = lowerStr s := by
  simp [lowerStr, List.map_map, Function.comp_def, toLower_idem]

/-- Claim C6: the extractor tries its sources in the fixed order
metadata field (if present and non-empty), slug suffix, body patterns,
title scan, excerpt scan; the first source yielding a candidate wins
regardless of the later ones, the result is returned lower-cased, and
`none` (no exception — the function is total) results when every step
fails. -/
theorem extract_fanza_id_source_order :
    (∀ (p : WpPost) (m : String), p.meta = some m → m ≠ "" →
        extract_fanza_id p = some (lowerStr m))
    ∧ (∀ (p : WpPost) (c : String), (p.meta = none ∨ p.meta = some "") →
        extract_fanza_id_from_slug p.slug = some c →
        extract_fanza_id p = some (lowerStr c))
    ∧ (∀ (p : WpPost) (c : String), (p.meta = none ∨ p.meta = some "") →
        extract_fanza_id_from_slug p.slug = none →
        extract_fanza_id_from_content p.content = some c →
        extract_fanza_id p = some (lowerStr c))
    ∧ (∀ (p : WpPost) (c : String), (p.meta = none ∨ p.meta = some "") →
        extract_fanza_id_from_slug p.slug = none →
        extract_fanza_id_from_content p.content = none →
        extract_fanza_id_from_text p.title = some c →
        extract_fanza_id p = some (lowerStr c))
    ∧ (∀ (p : WpPost) (c : String), (p.meta = none ∨ p.meta = some "") →
        extract_fanza_id_from_slug p.slug = none →
        extract_fanza_id_from_content p.content = none →
        extract_fanza_id_from_text p.title = none →
        extract_fanza_id_from_text p.excerpt = some c →
        extract_fanza_id p = some (lowerStr c))
    ∧ (∀ p : WpPost, (p.meta = none ∨ p.meta = some "") →
        extract_fanza_id_from_slug p.slug = none →
        extract_fanza_id_from_content p.content = none →
        extract_fanza_id_from_text p.title = none →
        extract_fanza_id_from_text p.excerpt = none →
        extract_fanza_id p = none)
    ∧ (∀ (p : WpPost) (c : String), extract_fanza_id p = some c →
        lowerStr c = c) := by
  have hmetaNone : ∀ p : WpPost, (p.meta = none ∨ p.meta = some "") →
      (match p.meta with
       | some m => if m = "" then none else some m
       | none => (none : Option String)) = none := by
    intro p hm
    rcases hm with hm | hm
    · rw [hm]
    · rw [hm]
      simp
  refine ⟨?_, ?_, ?_, ?_, ?_, ?_, ?_⟩
  · intro p m hm hne
    simp [extract_fanza_id, hm, hne, Option.orElse]
  · intro p c hm hs
    simp [extract_fanza_id, hmetaNone p hm, hs, Option.orElse]
  · intro p c hm hs hc
    simp [extract_fanza_id, hmetaNone p hm, hs, hc, Option.orElse]
  · intro p c hm hs hc ht
    simp [extract_fanza_id, hmetaNone p hm, hs, hc, ht, Option.orElse]
  · intro p c hm hs hc ht he
    simp [extract_fanza_id, hmetaNone p hm, hs, hc, ht, he, Option.orElse]
  · intro p hm hs hc ht he
    simp [extract_fanza_id, hmetaNone p hm, hs, hc, ht, he, Option.orElse]
  · intro p c h
    simp only [extract_fanza_id] at h
    obtain ⟨x, _, rfl⟩ := Option.map_eq_some'.mp h
    exact lowerStr_idem x

/-- Witness for C6 at a concrete input: the metadata field wins over a
slug that would also match, the slug wins over the body, and a post with
no matching source yields `none`. -/
theorem extract_fanza_id_source_order_witness :
    extract_fanza_id ⟨some 1, some "MIDE-700", "actress-ipx-123", "", "", ""⟩
      = some (lowerStr "MIDE-700")
    ∧ extract_fanza_id ⟨some 1, none, "actress-ipx-123", "cid=abc123 x", "", ""⟩
      = some (lowerStr "ipx-123")
    ∧ extract_fanza_id ⟨some 1, none, "2026-01-30", "", "", ""⟩ = none :=
  ⟨extract_fanza_id_source_order.1
     ⟨some 1, some "MIDE-700", "actress-ipx-123", "", "", ""⟩ "MIDE-700" rfl
     (by decide),
   extract_fanza_id_source_order.2.1
     ⟨some 1, none, "actress-ipx-123", "cid=abc123 x", "", ""⟩ "ipx-123"
     (Or.inl rfl) (by decide),
   extract_fanza_id_source_order.2.2.2.2.2.1
     ⟨some 1, none, "2026-01-30", "", "", ""⟩ (Or.inl rfl)
     (by decide) rfl rfl rfl⟩

theorem uint32_le_iff_toNat (a b : UInt32) : a ≤ b ↔ a.toNat ≤ b.toNat := by
  rw [UInt32.le_def, BitVec.le_def]
  exact Iff.rfl

theorem char_isDigit_iff (c : Char) :
    c.isDigit = true ↔ 48 ≤ c.toNat ∧ c.toNat ≤ 57 := by
  simp only [Char.isDigit, Bool.and_eq_true, decide_eq_true_eq, ge_iff_le]
  rw [uint32_le_iff_toNat, uint32_le_iff_toNat]
  exact Iff.rfl

theorem char_isAlpha_iff (c : Char) :
    c.isAlpha = true ↔ (65 ≤ c.toNat ∧ c.toNat ≤ 90)
      ∨ (97 ≤ c.toNat ∧ c.toNat ≤ 122) := by
  simp only [Char.isAlpha, Char.isUpper, Char.isLower, Bool.or_eq_true,
    Bool.and_eq_true, decide_eq_true_eq, ge_iff_le]
  rw [uint32_le_iff_toNat, uint32_le_iff_toNat, uint32_le_iff_toNat,
    uint32_le_iff_toNat]
  exact Iff.rfl

theorem char_isAlphanum_iff (c : Char) :
    c.isAlphanum = true ↔ (65 ≤ c.toNat ∧ c.toNat ≤ 90)
      ∨ (97 ≤ c.toNat ∧ c.toNat ≤ 122) ∨ (48 ≤ c.toNat ∧ c.toNat ≤ 57) := by
  simp only [Char.isAlphanum, Bool.or_eq_true, char_isAlpha_iff,
    char_isDigit_iff]
  tauto

theorem toLower_eq_self_of_not_upper (c : Char)
    (h : ¬ (65 ≤ c.toNat ∧ c.toNat ≤ 90)) : Char.toLower c = c := by
  rw [char_toLower_unfold c, if_neg h]

theorem toLower_isDigit (c : Char) (h : c.isDigit = true) :
    (Char.toLower c).isDigit = true := by
  have hd := (char_isDigit_iff c).mp h
  rw [toLower_eq_self_of_not_upper c (by omega)]
  exact h

theorem toLower_isRunChar (c : Char) (h : isRunChar c = true) :
    isRunChar (Char.toLower c) = true := by
  by_cases hup : 65 ≤ c.toNat ∧ c.toNat ≤ 90
  · have h1 := toLower_toNat_of_upper c hup.1 hup.2
    simp only [isRunChar, isWordChar, Bool.or_eq_true]
    left
    left
    rw [char_isAlphanum_iff]
    right
    left
    omega
  · rw [toLower_eq_self_of_not_upper c hup]
    exact h

theorem getLast?_map {α β : Type} (f : α → β) :
    ∀ l : List α, (l.map f).getLast? = l.getLast?.map f := by
  intro l
  induction l with
  | nil => rfl
  | cons a rest ih =>
      cases rest with
      | nil => rfl
      | cons b rest' =>
          simp only [List.map_cons] at ih ⊢
          rw [List.getLast?_cons_cons, List.getLast?_cons_cons, ih]

theorem splitGroups_ne_nil : ∀ s : List Char, splitGroups s ≠ [] := by
  intro s
  cases s with
  | nil => simp [splitGroups]
  | cons c cs =>
      simp only [splitGroups]
      cases splitGroups cs with
      | nil => simp
      | cons g gs =>
          by_cases h : c = '-' <;> simp [h]

theorem getLast?_some_of_ne_nil {α : Type} (l : List α) (h : l ≠ []) :
    ∃ y, l.getLast? = some y :=
  ⟨l.getLast h, List.getLast?_eq_getLast l h⟩

theorem splitGroups_join : ∀ s : List Char, joinHyphen (splitGroups s) = s := by
  intro s
  induction s with
  | nil => rfl
  | cons c cs ih =>
      cases hg : splitGroups cs with
      | nil => exact absurd hg (splitGroups_ne_nil cs)
      | cons g gs =>
          rw [hg] at ih
          by_cases h : c = '-'
          · subst h
            have hsg : splitGroups ('-' :: cs) = [] :: g :: gs := by
              simp [splitGroups, hg]
            rw [hsg]
            show [] ++ '-' :: joinHyphen (g :: gs) = '-' :: cs
            rw [ih]
            rfl
          · have hsg : splitGroups (c :: cs) = (c :: g) :: gs := by
              simp [splitGroups, hg, h]
            rw [hsg]
            cases gs with
            | nil =>
                show c :: g = c :: cs
                simp only [joinHyphen] at ih
                rw [ih]
            | cons g1 gs1 =>
                show (c :: g) ++ '-' :: joinHyphen (g1 :: gs1) = c :: cs
                simp only [joinHyphen] at ih
                rw [List.cons_append, ih]

theorem joinHyphen_mem : ∀ (gs : List (List Char)) (c : Char),
    c ∈ joinHyphen gs → (∃ g ∈ gs, c ∈ g) ∨ c = '-' := by
  intro gs
  induction gs with
  | nil => intro c h; simp [joinHyphen] at h
  | cons g rest ih =>
      intro c h
      cases rest with
      | nil =>
          simp only [joinHyphen] at h
          exact Or.inl ⟨g, by simp, h⟩
      | cons g1 rest1 =>
          simp only [joinHyphen, List.mem_append, List.mem_cons] at h
          rcases h with h | h | h
          · exact Or.inl ⟨g, by simp, h⟩
          · exact Or.inr h
          · rcases ih c h with ⟨g', hg', hc⟩ | hc
            · exact Or.inl ⟨g', by simp [hg'], hc⟩
            · exact Or.inr hc

theorem joinHyphen_getLast : ∀ (gs : List (List Char)) (g : List Char),
    gs.getLast? = some g → g ≠ [] →
    (joinHyphen gs).getLast? = g.getLast? := by
  intro gs
  induction gs with
  | nil => intro g h _; simp at h
  | cons g0 rest ih =>
      intro g h hne
      cases rest with
      | nil =>
          simp only [List.getLast?_singleton, Option.some_inj] at h
          subst h
          rfl
      | cons g1 rest1 =>
          rw [List.getLast?_cons_cons] at h
          have hrec := ih g h hne
          show (g0 ++ '-' :: joinHyphen (g1 :: rest1)).getLast? = g.getLast?
          rw [List.getLast?_append]
          obtain ⟨y, hy⟩ := getLast?_some_of_ne_nil g hne
          cases hj : joinHyphen (g1 :: rest1) with
          | nil =>
              rw [hj] at hrec
              rw [hy] at hrec
              simp at hrec
          | cons x xs =>
              rw [hj] at hrec
              rw [List.getLast?_cons_cons, hrec, hy]
              rfl

theorem fullmatch_spec_shape (s : List Char) (h : fanza_id_fullmatch s = true) :
    spec_shape_rule (String.mk s) = true := by
  simp only [fanza_id_fullmatch, Bool.and_eq_true] at h
  obtain ⟨⟨⟨hgroups, hlast⟩, halpha⟩, hdigit⟩ := h
  have hgroups' := List.all_eq_true.mp hgroups
  simp only [spec_shape_rule, Bool.and_eq_true]
  refine ⟨⟨⟨halpha, hdigit⟩, ?_⟩, ?_⟩
  · apply List.all_eq_true.mpr
    intro c hc
    have hmem : c ∈ joinHyphen (splitGroups s) := by
      rw [splitGroups_join]; exact hc
    rcases joinHyphen_mem (splitGroups s) c hmem with ⟨g, hg, hcg⟩ | hdash
    · have := hgroups' g hg
      simp only [Bool.and_eq_true] at this
      have hw := List.all_eq_true.mp this.2 c hcg
      simp only [isWordChar, Bool.or_eq_true] at hw
      simp only [Bool.or_eq_true]
      tauto
    · simp [hdash]
  · cases hgl : (splitGroups s).getLast? with
    | none => rw [hgl] at hlast; simp at hlast
    | some g =>
        rw [hgl] at hlast
        simp only [groupEndsOk, Bool.and_eq_true, decide_eq_true_eq] at hlast
        obtain ⟨hlen, hdig⟩ := hlast
        have hne : g ≠ [] := by
          intro hnil; rw [hnil] at hlen; simp at hlen
        have := joinHyphen_getLast (splitGroups s) g hgl hne
        rw [splitGroups_join] at this
        rw [this]
        cases hge : g.getLast? with
        | none => rw [hge] at hdig; simp at hdig
        | some d => rw [hge] at hdig; exact hdig

theorem lastGoodPrefix_spec :
    ∀ (l pre : List (List Char)) (j : Nat),
      lastGoodPrefix l = some (pre, j) →
      pre ≠ [] ∧ (∀ g ∈ pre, g ∈ l)
      ∧ (∃ g, pre.getLast? = some g ∧ groupEndsOk g = true) := by
  intro l
  induction l with
  | nil => intro pre j h; simp [lastGoodPrefix] at h
  | cons g0 rest ih =>
      intro pre j h
      simp only [lastGoodPrefix] at h
      cases hrec : lastGoodPrefix rest with
      | some pj =>
          obtain ⟨pre0, j0⟩ := pj
          rw [hrec] at h
          simp only [Option.some_inj, Prod.mk.injEq] at h
          obtain ⟨hpre, _⟩ := h
          subst hpre
          obtain ⟨hne0, hmem0, g', hg', hok⟩ := ih pre0 j0 hrec
          refine ⟨by simp, ?_, ⟨g', ?_, hok⟩⟩
          · intro g hg
            rcases List.mem_cons.mp hg with rfl | hg
            · simp
            · exact List.mem_cons_of_mem _ (hmem0 g hg)
          · cases pre0 with
            | nil => exact absurd rfl hne0
            | cons a as =>
                rw [List.getLast?_cons_cons]
                exact hg'
      | none =>
          rw [hrec] at h
          by_cases hok : groupEndsOk g0
          · rw [if_pos hok] at h
            simp only [Option.some_inj, Prod.mk.injEq] at h
            obtain ⟨hpre, _⟩ := h
            subst hpre
            refine ⟨by simp, ?_, ⟨g0, rfl, hok⟩⟩
            intro g hg
            simp only [List.mem_singleton] at hg
            subst hg
            simp
          · rw [if_neg hok] at h
            simp at h

theorem joinHyphen_ne_nil (p0 : List Char) (ps : List (List Char))
    (hp0 : p0 ≠ []) : joinHyphen (p0 :: ps) ≠ [] := by
  cases ps with
  | nil => exact hp0
  | cons b rest1 =>
      show p0 ++ '-' :: joinHyphen (b :: rest1) ≠ []
      simp

theorem joinHyphen_all_runChar (pre : List (List Char))
    (h : ∀ g ∈ pre, g.all isWordChar = true) :
    (joinHyphen pre).all isRunChar = true := by
  apply List.all_eq_true.mpr
  intro c hc
  rcases joinHyphen_mem pre c hc with ⟨g, hg, hcg⟩ | hdash
  · have := List.all_eq_true.mp (h g hg) c hcg
    simp only [isRunChar, Bool.or_eq_true]
    exact Or.inl this
  · simp [isRunChar, hdash]

theorem scanGroups_sound :
    ∀ (fuel : Nat) (gs : List (List Char)),
      (∀ g ∈ gs, g.all isWordChar = true) →
      ∀ tok ∈ scanGroups fuel gs,
        tok ≠ [] ∧ tok.all isRunChar = true
        ∧ (∃ d, tok.getLast? = some d ∧ d.isDigit = true) := by
  intro fuel
  induction fuel with
  | zero => intro gs _ tok htok; simp [scanGroups] at htok
  | succ f ih =>
      intro gs hgs tok htok
      cases gs with
      | nil => simp [scanGroups] at htok
      | cons g rest =>
          simp only [scanGroups] at htok
          by_cases hcond : (!g.isEmpty
              && (g :: rest).any (fun x => x.any Char.isAlpha)
              && (g :: rest).any (fun x => x.any Char.isDigit)) = true
          · rw [if_pos hcond] at htok
            simp only [Bool.and_eq_true, Bool.not_eq_true'] at hcond
            cases hlg : lastGoodPrefix (g :: rest.takeWhile (fun x => !x.isEmpty)) with
            | some pj =>
                obtain ⟨pre, j⟩ := pj
                rw [hlg] at htok
                obtain ⟨hpre_ne, hpre_mem, g', hg'last, hg'ok⟩ :=
                  lastGoodPrefix_spec _ pre j hlg
                have hspan_sub : ∀ x ∈ g :: rest.takeWhile (fun y => !y.isEmpty),
                    x ∈ g :: rest := by
                  intro x hx
                  rcases List.mem_cons.mp hx with rfl | hx
                  · simp
                  · exact List.mem_cons_of_mem _
                      ((List.takeWhile_sublist _).subset hx)
                rcases List.mem_cons.mp htok with rfl | htok
                · -- the emitted token
                  have hpre_words : ∀ x ∈ pre, x.all isWordChar = true := by
                    intro x hx
                    exact hgs x (hspan_sub x (hpre_mem x hx))
                  have hg'_ne : g' ≠ [] := by
                    simp only [groupEndsOk, Bool.and_eq_true,
                      decide_eq_true_eq] at hg'ok
                    intro hnil
                    rw [hnil] at hg'ok
                    simp at hg'ok
                  refine ⟨?_, joinHyphen_all_runChar pre hpre_words, ?_⟩
                  · cases hpre : pre with
                    | nil => exact absurd hpre hpre_ne
                    | cons p0 ps =>
                        have hp0 : p0 ∈ pre := by rw [hpre]; simp
                        have hp0span := hpre_mem p0 hp0
                        have hp0_ne : p0 ≠ [] := by
                          rcases List.mem_cons.mp hp0span with rfl | hx
                          · intro hnil
                            rw [hnil] at hcond
                            simp at hcond
                          · have := List.mem_takeWhile_imp hx
                            simpa using this
                        exact joinHyphen_ne_nil p0 ps hp0_ne
                  · simp only [groupEndsOk, Bool.and_eq_true,
                      decide_eq_true_eq] at hg'ok
                    obtain ⟨_, hdig⟩ := hg'ok
                    cases hge : g'.getLast? with
                    | none => rw [hge] at hdig; simp at hdig
                    | some d =>
                        rw [hge] at hdig
                        refine ⟨d, ?_, hdig⟩
                        rw [joinHyphen_getLast pre g' hg'last hg'_ne, hge]
                · exact ih (rest.drop j)
                    (fun x hx => hgs x (List.mem_cons_of_mem _
                      (List.drop_subset _ _ hx))) tok htok
            | none =>
                rw [hlg] at htok
                exact ih rest (fun x hx => hgs x (List.mem_cons_of_mem _ hx))
                  tok htok
          · rw [if_neg hcond] at htok
            exact ih rest (fun x hx => hgs x (List.mem_cons_of_mem _ hx))
              tok htok

theorem splitRuns_sound :
    ∀ (fuel : Nat) (l : List Char), ∀ run ∈ splitRuns fuel l,
      run.all isRunChar = true := by
  intro fuel
  induction fuel with
  | zero => intro l run h; simp [splitRuns] at h
  | succ f ih =>
      intro l run h
      cases l with
      | nil => simp [splitRuns] at h
      | cons c cs =>
          simp only [splitRuns] at h
          by_cases hc : isRunChar c
          · rw [if_pos hc] at h
            rcases List.mem_cons.mp h with rfl | h
            · apply List.all_eq_true.mpr
              intro x hx
              rcases List.mem_cons.mp hx with rfl | hx
              · exact hc
              · exact List.mem_takeWhile_imp hx
            · exact ih _ run h
          · rw [if_neg hc] at h
            exact ih _ run h

theorem splitGroups_wordChar (l : List Char) (hl : l.all isRunChar = true) :
    ∀ g ∈ splitGroups l, g.all isWordChar = true := by
  induction l with
  | nil =>
      intro g hg
      simp only [splitGroups, List.mem_singleton] at hg
      subst hg
      rfl
  | cons c cs ih =>
      intro g hg
      simp only [List.all_cons, Bool.and_eq_true] at hl
      obtain ⟨hc, hcs⟩ := hl
      have ihcs := ih hcs
      simp only [splitGroups] at hg
      cases hsg : splitGroups cs with
      | nil => exact absurd hsg (splitGroups_ne_nil cs)
      | cons g0 gs0 =>
          rw [hsg] at hg
          have hg2 : g ∈ (if c = '-' then [] :: g0 :: gs0
              else (c :: g0) :: gs0) := hg
          clear hg
          rename' hg2 => hg
          by_cases hdash : c = '-'
          · rw [if_pos hdash] at hg
            rcases List.mem_cons.mp hg with rfl | hg
            · rfl
            · exact ihcs g (hsg ▸ hg)
          · rw [if_neg hdash] at hg
            rcases List.mem_cons.mp hg with rfl | hg
            · have hg0 : g0 ∈ splitGroups cs := by rw [hsg]; simp
              have hg0w := ihcs g0 hg0
              simp only [List.all_cons, Bool.and_eq_true]
              refine ⟨?_, hg0w⟩
              simp only [isRunChar, Bool.or_eq_true] at hc
              rcases hc with hw | hd
              · exact hw
              · exact absurd (by simpa using hd) hdash
            · exact ihcs g (hsg ▸ List.mem_cons_of_mem g0 hg)

theorem findall_fanza_text_sound (s : List Char) :
    ∀ tok ∈ findall_fanza_text s,
      tok ≠ [] ∧ tok.all isRunChar = true
      ∧ (∃ d, tok.getLast? = some d ∧ d.isDigit = true) := by
  intro tok htok
  simp only [findall_fanza_text, List.mem_flatten, List.mem_map] at htok
  obtain ⟨toks, ⟨run, hrun, rfl⟩, htok⟩ := htok
  have hrunchars := splitRuns_sound (s.length + 1) s run hrun
  exact scanGroups_sound _ _ (splitGroups_wordChar run hrunchars) tok htok

theorem extract_fanza_id_from_text_sound (t : String) (c : String)
    (h : extract_fanza_id_from_text t = some c) :
    c ≠ "" ∧ c.data.all isRunChar = true
    ∧ (∃ d, c.data.getLast? = some d ∧ d.isDigit = true) := by
  simp only [extract_fanza_id_from_text] at h
  by_cases ht : t = ""
  · rw [if_pos ht] at h; simp at h
  · rw [if_neg ht] at h
    cases hlast : (findall_fanza_text t.data).getLast? with
    | none => rw [hlast] at h; simp at h
    | some m =>
        rw [hlast] at h
        simp only [Option.some_inj] at h
        subst h
        have hmem : m ∈ findall_fanza_text t.data := by
          cases hfa : findall_fanza_text t.data with
          | nil => rw [hfa] at hlast; simp at hlast
          | cons x xs =>
              rw [hfa] at hlast
              have hgl := List.getLast?_eq_getLast (x :: xs) (by simp)
              rw [hlast] at hgl
              have hm : m = (x :: xs).getLast (by simp) := Option.some_inj.mp hgl
              rw [hm]
              exact List.getLast_mem _
        obtain ⟨hne, hall, d, hd, hdig⟩ := findall_fanza_text_sound t.data m hmem
        refine ⟨?_, ?_, ?_⟩
        · intro hnil
          apply hne
          have : (m.map Char.toLower) = [] := congrArg String.data hnil
          simpa using this
        · show (m.map Char.toLower).all isRunChar = true
          apply List.all_eq_true.mpr
          intro x hx
          obtain ⟨y, hy, rfl⟩ := List.mem_map.mp hx
          exact toLower_isRunChar y (List.all_eq_true.mp hall y hy)
        · show ∃ d', (m.map Char.toLower).getLast? = some d' ∧ d'.isDigit = true
          refine ⟨Char.toLower d, ?_, toLower_isDigit d hdig⟩
          rw [getLast?_map, hd]
          rfl

theorem orElse_some {α : Type} (o : Option α) (f : Unit → Option α) (c : α)
    (h : o.orElse f = some c) : o = some c ∨ f () = some c := by
  cases o with
  | none => right; simpa [Option.orElse] using h
  | some x => left; simpa [Option.orElse] using h

theorem guarded_some {α : Type} (p : Prop) [Decidable p] (b : Bool) (x c : α)
    (h : (if p then (if b then some x else none) else none) = some c) :
    c = x ∧ b = true := by
  by_cases hp : p
  · rw [if_pos hp] at h
    cases hb : b
    · rw [hb] at h; simp at h
    · rw [hb] at h
      simp only [if_true] at h
      exact ⟨(Option.some_inj.mp h).symm, rfl⟩
  · rw [if_neg hp] at h; simp at h

theorem extract_fanza_id_from_slug_sound (slug c : String)
    (h : extract_fanza_id_from_slug slug = some c) :
    spec_shape_rule c = true := by
  simp only [extract_fanza_id_from_slug] at h
  by_cases hs : slug = ""
  · rw [if_pos hs] at h; simp at h
  · rw [if_neg hs] at h
    rcases orElse_some _ _ _ h with h' | h'
    · rcases orElse_some _ _ _ h' with h'' | h''
      all_goals
        obtain ⟨rfl, hfm⟩ := guarded_some _ _ _ _ h''
        exact fullmatch_spec_shape _ hfm
    · obtain ⟨rfl, hfm⟩ := guarded_some _ _ _ _ h'
      exact fullmatch_spec_shape _ hfm

theorem shapeFiltered_sound (o : Option (List Char)) (cap : List Char)
    (h : shapeFiltered o = some cap) : fanza_id_fullmatch cap = true := by
  cases o with
  | none => simp [shapeFiltered] at h
  | some x =>
      simp only [shapeFiltered] at h
      by_cases hf : fanza_id_fullmatch x
      · rw [if_pos hf] at h
        rw [← Option.some_inj.mp h]
        exact hf
      · rw [if_neg hf] at h; simp at h

theorem content_scan_url_sound (s cap : List Char)
    (h1 : scanLiteralCapture "cid=".data s = none)
    (h2 : scanLiteralCapture "cid%3d".data s = none)
    (h3 : scanLiteralCapture "content_id=".data s = none)
    (h : content_scan s = some cap) :
    fanza_id_fullmatch cap = true := by
  simp only [content_scan, h1, h2, h3, Option.orElse] at h
  rcases orElse_some _ _ _ h with h' | h'
  · exact shapeFiltered_sound _ _ h'
  · rcases orElse_some _ _ _ h' with h'' | h''
    · exact shapeFiltered_sound _ _ h''
    · exact shapeFiltered_sound _ _ h''

/-- Counterexample to C7 as stated: the `cid=` capture of the content
step is returned without any shape check, so a post whose body contains
`cid=2026` yields the candidate `2026`, which violates the shape rule
(no letter); and the letter-lookahead of the text regex may be satisfied
beyond the returned token, so the title/excerpt scan can return `12-34`
(no letter) from the text `12-34-ab`. -/
theorem shape_rule_counterexample :
    extract_fanza_id ⟨none, none, "post", "cid=2026", "", ""⟩ = some "2026"
    ∧ spec_shape_rule "2026" = false
    ∧ extract_fanza_id_from_text "12-34-ab" = some "12-34"
    ∧ spec_shape_rule "12-34" = false := by
  refine ⟨by decide, by decide, by decide, by decide⟩

/-- C7, amended: the identifier shape rule (letter + digit + only
letters/digits/underscore/hyphen + trailing digit) is enforced at the
slug step and at the image-URL branch of the content step; the free-text
title/excerpt scan guarantees the character class and the trailing digit
but its at-least-one-letter lookahead may be satisfied beyond the
returned token; the metadata field and the cid=/content_id= captures are
accepted with no shape check at all. The claim's concrete slug examples
hold: `2026-01-30` and `no-digits-here` extract to not-found and
`actress-ipx-123` to `ipx-123`. -/
theorem shape_rule_amended :
    (∀ slug c, extract_fanza_id_from_slug slug = some c →
        spec_shape_rule c = true)
    ∧ (∀ s cap : List Char,
        scanLiteralCapture "cid=".data s = none →
        scanLiteralCapture "cid%3d".data s = none →
        scanLiteralCapture "content_id=".data s = none →
        content_scan s = some cap → spec_shape_rule (String.mk cap) = true)
    ∧ (∀ t c, extract_fanza_id_from_text t = some c →
        c ≠ "" ∧ c.data.all isRunChar = true
        ∧ (∃ d, c.data.getLast? = some d ∧ d.isDigit = true))
    ∧ extract_fanza_id ⟨none, none, "2026-01-30", "", "", ""⟩ = none
    ∧ extract_fanza_id ⟨none, none, "no-digits-here", "", "", ""⟩ = none
    ∧ extract_fanza_id ⟨none, none, "actress-ipx-123", "", "", ""⟩
        = some "ipx-123" := by
  refine ⟨?_, ?_, ?_, by decide, by decide, by decide⟩
  · exact extract_fanza_id_from_slug_sound
  · intro s cap h1 h2 h3 h
    exact fullmatch_spec_shape cap (content_scan_url_sound s cap h1 h2 h3 h)
  · exact extract_fanza_id_from_text_sound

/-- Witness for the amended C7 at concrete inputs: the slug candidate
`ipx-123`, an image-URL capture, and a text match all conform as stated. -/
theorem shape_rule_amended_witness :
    spec_shape_rule "ipx-123" = true
    ∧ spec_shape_rule (String.mk "ssis00123".data) = true
    ∧ ("ipx-123" : String) ≠ ""
    ∧ ("ipx-123" : String).data.all isRunChar = true :=
  ⟨shape_rule_amended.1 "actress-ipx-123" "ipx-123" (by decide),
   shape_rule_amended.2.1 "pics.dmm.co.jp/digital/videoa/ssis00123/".data
     "ssis00123".data (by decide) (by decide) (by decide) (by decide),
   (shape_rule_amended.2.2.1 "title ipx-123" "ipx-123" (by decide)).1,
   (shape_rule_amended.2.2.1 "title ipx-123" "ipx-123" (by decide)).2.1⟩

-- Theorems

theorem collect_pages_ok (pages : List PageResult)
    (h : pages.any pageIsError = false) :
    ∃ posts, collect_pages pages = .ok posts := by
  induction pages with
  | nil => exact ⟨[], rfl⟩
  | cons p ps ih =>
      simp only [List.any_cons, Bool.or_eq_false_iff] at h
      obtain ⟨hp, hps⟩ := h
      cases p with
      | error e => simp [pageIsError] at hp
      | ok posts =>
          obtain ⟨rest, hrest⟩ := ih hps
          exact ⟨posts ++ rest, by simp [collect_pages, hrest]⟩

theorem collect_pages_error (pages : List PageResult)
    (h : pages.any pageIsError = true) :
    ∃ e, collect_pages pages = .error e := by
  induction pages with
  | nil => simp at h
  | cons p ps ih =>
      cases p with
      | error e => exact ⟨e, rfl⟩
      | ok posts =>
          simp only [List.any_cons, pageIsError, Bool.false_or] at h
          obtain ⟨e, he⟩ := ih h
          exact ⟨e, by simp [collect_pages, he]⟩

theorem get_meta_set_self (m : MetaTable) (k v : String) :
    get_meta (set_meta m k v) k = some v := by
  induction m with
  | nil => simp [set_meta, upsertMeta, get_meta, List.find?]
  | cons e rest ih =>
      obtain ⟨k0, v0⟩ := e
      by_cases h : k0 = k
      · simp [set_meta, upsertMeta, h, get_meta, List.find?]
      · simpa [set_meta, upsertMeta, h, get_meta, List.find?] using ih

/-- Claim C5: atomicity of the sync cursor. If any page fetch raises,
the sync pass ends with the store and the meta table — in particular the
`wp_last_sync_at` cursor — exactly as they were; when the whole walk and
the bulk upsert complete, and only then, the cursor is advanced to the
current time. -/
theorem sync_cursor_atomicity :
    (∀ (rows : Store) (meta : MetaTable) (pages : List PageResult)
        (now : String), pages.any pageIsError = true →
        sync_wp_cache rows meta pages now = (rows, meta, false))
    ∧ (∀ (rows : Store) (meta : MetaTable) (pages : List PageResult)
        (now : String), pages.any pageIsError = false →
        get_meta (sync_wp_cache rows meta pages now).2.1 "wp_last_sync_at"
            = some now
        ∧ (sync_wp_cache rows meta pages now).2.2 = true)
    ∧ (∀ (rows : Store) (meta : MetaTable) (pages : List PageResult)
        (now : String),
        (sync_wp_cache rows meta pages now).2.2 = true
          ↔ pages.any pageIsError = false) := by
  have herr : ∀ (rows : Store) (meta : MetaTable) (pages : List PageResult)
      (now : String), pages.any pageIsError = true →
      sync_wp_cache rows meta pages now = (rows, meta, false) := by
    intro rows meta pages now h
    obtain ⟨e, he⟩ := collect_pages_error pages h
    simp [sync_wp_cache, he]
  have hok : ∀ (rows : Store) (meta : MetaTable) (pages : List PageResult)
      (now : String), pages.any pageIsError = false →
      get_meta (sync_wp_cache rows meta pages now).2.1 "wp_last_sync_at"
          = some now
      ∧ (sync_wp_cache rows meta pages now).2.2 = true := by
    intro rows meta pages now h
    obtain ⟨posts, hp⟩ := collect_pages_ok pages h
    constructor
    · simp [sync_wp_cache, hp, get_meta_set_self]
    · simp [sync_wp_cache, hp]
  refine ⟨herr, hok, ?_⟩
  intro rows meta pages now
  constructor
  · intro hdone
    cases hany : pages.any pageIsError with
    | false => rfl
    | true =>
        rw [herr rows meta pages now hany] at hdone
        simp at hdone
  · intro hany
    exact (hok rows meta pages now hany).2

/-- Witness for C5 at concrete inputs: a failing page leaves everything
unchanged; a succeeding one-page walk advances the cursor. -/
theorem sync_cursor_atomicity_witness :
    sync_wp_cache [] [("wp_last_sync_at", "t0")] [.error "HTTP 500"] "t1"
      = ([], [("wp_last_sync_at", "t0")], false)
    ∧ get_meta (sync_wp_cache [] [("wp_last_sync_at", "t0")]
        [.ok [⟨some 3, some "ipx-123", "", "", "", ""⟩]] "t1").2.1
        "wp_last_sync_at" = some "t1" :=
  ⟨sync_cursor_atomicity.1 [] [("wp_last_sync_at", "t0")] [.error "HTTP 500"]
     "t1" rfl,
   (sync_cursor_atomicity.2.1 [] [("wp_last_sync_at", "t0")]
     [.ok [⟨some 3, some "ipx-123", "", "", "", ""⟩]] "t1" rfl).1⟩
